import Mathlib

/-!
Verification of the nilmtk `DataSet` import/export subsystem
(`nilmtk/dataset/dataset.py`).

The Python code is shallowly embedded: Python `str` values are Lean
`String`s, store path keys are manipulated as `List Char` (the character
sequence of the Python string), Python `dict`s are association lists,
Python exceptions are modelled with `Except String` (the error string
names the Python exception class), and `float64` data values are modelled
as exact rationals.  Builtin Python operations used by the source
(`str.split`, the `in` substring test, `int()` parsing, `"%d"` decimal
formatting, negative indexing) are embedded as the helper functions below,
each faithful to the Python semantics on the inputs the code supplies.
-/

namespace Nilmtk

/-! ## Decimal formatting and parsing (Python `"%d" % n` and `int(s)`) -/

/-- The character for a decimal digit value (`0 ↦ '0'`, ..., `9 ↦ '9'`). -/
def digitChar (d : Nat) : Char := Char.ofNat (48 + d)

/-- The numeric value of a decimal digit character. -/
def charVal (c : Char) : Nat := c.toNat - 48

/-- Fueled helper for `natChars`; the fuel is always sufficient at call
sites (`natChars` passes `n + 1`). -/
def natCharsAux : Nat → Nat → List Char
  | 0, _ => []
  | fuel + 1, n =>
    if n < 10 then [digitChar n]
    else natCharsAux fuel (n / 10) ++ [digitChar (n % 10)]

/-- Python `"%d" % n` for a nonnegative integer: the decimal numeral of
`n`, most significant digit first (`0` prints as `"0"`). -/
def natChars (n : Nat) : List Char := natCharsAux (n + 1) n

/-- Python `int(s)` restricted to the optional-free case the source
exercises: a nonempty all-digit string parses to its decimal value,
anything else raises `ValueError` (modelled as `none`). -/
def pyInt? (s : List Char) : Option Nat :=
  if s ≠ [] ∧ s.all Char.isDigit then
    some (s.foldl (fun acc c => 10 * acc + charVal c) 0)
  else none

/-! ## Python `str.split(sep)` and substring membership (`pat in s`) -/

/-- Python `s.split(sep)` for a one-character separator, on the character
sequence of the string.  `"".split(sep) = [""]`; separators at either end
produce empty fields, exactly as in Python. -/
def splitChar (sep : Char) : List Char → List (List Char)
  | [] => [[]]
  | c :: cs =>
    if c = sep then [] :: splitChar sep cs
    else
      match splitChar sep cs with
      | [] => [[c]]
      | h :: t => (c :: h) :: t

/-- Joining fields with a one-character separator (inverse of
`splitChar`); used to describe the store keys the exporter constructs. -/
def joinSegs (sep : Char) : List (List Char) → List Char
  | [] => []
  | [s] => s
  | s :: rest => s ++ sep :: joinSegs sep rest

/-! ## Python indexing, substring test, and HDF store key normalisation -/

/-- Python `l[i]` with negative-index wraparound, `none` for `IndexError`. -/
def pyIdx (l : List α) (i : Int) : Option α :=
  let j : Int := if i < 0 then (l.length : Int) + i else i
  if 0 ≤ j then l[j.toNat]? else none

/-- Python `pat in key` (contiguous substring membership), as used by
`load_hdf5` on store path keys. -/
def pyContains (pat : String) (key : List Char) : Bool :=
  decide (pat.toList <:+: key)

/-- Strip trailing `/` characters from a store path (the HDF store reports
group paths without a trailing slash even when `put` was given one). -/
def dropTrailingSep (l : List Char) : List Char :=
  (l.reverse.dropWhile (fun c => c = '/')).reverse

/-- Prepend the root `/` when absent (the HDF store addresses every key
relative to the root group, so `keys()` reports a leading slash). -/
def ensureLeadingSlash (l : List Char) : List Char :=
  if l.head? = some '/' then l else '/' :: l

/-- The canonical form under which the HDF store reports a key given to
`put`: leading slash present, trailing slash removed. -/
def normalizeKey (l : List Char) : List Char :=
  ensureLeadingSlash (dropTrailingSep l)

/-! ## Data model

Identifier and column-key types from `nilmtk.sensors.electricity`
(named tuples in the source; the spec, section 3, gives their fields). -/

/-- `Measurement(physical_quantity, type)`: a single-supply reading
descriptor used as a table column key. -/
structure Measurement where
  physical_quantity : String
  type : String
deriving DecidableEq

/-- `DualSupply(measurement, supply)`: a reading descriptor for
dual-supply appliances, wrapping a `Measurement` plus a supply leg. -/
structure DualSupply where
  measurement : Measurement
  supply : Nat
deriving DecidableEq

/-- A table column label is (by Python duck typing) either a plain
`Measurement` or a `DualSupply`; `isinstance(x, DualSupply)` becomes a
match on this sum. -/
inductive ColKey where
  | single (m : Measurement)
  | dual (d : DualSupply)
deriving DecidableEq

/-- `MainsName(split, meter)`. -/
structure MainsName where
  split : Nat
  meter : Nat
deriving DecidableEq

/-- `ApplianceName(name, instance)`; the `instance` field is called
`inst` here because `instance` is a Lean keyword. -/
structure ApplianceName where
  name : String
  inst : Nat
deriving DecidableEq

/-- `CircuitName(name, split, meter)`. -/
structure CircuitName where
  name : String
  split : Nat
  meter : Nat
deriving DecidableEq

/-- A pandas `DataFrame` as this code uses it: a `DatetimeIndex` held as
int64 nanosecond timestamps, column labels of type `κ`, and float64 data
values modelled as exact rationals (one row list per index entry). -/
structure DataFrame (κ : Type) where
  index : List Int
  columns : List κ
  values : List (List ℚ)
deriving DecidableEq

/-- Python dict assignment `d[k] = v` on an association list: replace the
existing binding in place, or append a new one. -/
def dinsert [DecidableEq K] (k : K) (v : V) : List (K × V) → List (K × V)
  | [] => [(k, v)]
  | (k', v') :: rest =>
    if k' = k then (k, v) :: rest else (k', v') :: dinsert k v rest

/-- Modelled from the spec: `nilmtk.building.Building` is not under
`src/`.  Spec section 3: a `Building` owns `utility.electric` with three
mappings `mains : MainsName -> table`, `appliances : ApplianceName ->
table`, `circuits : CircuitName -> table`; `Building()` constructs them
empty. -/
structure Electric where
  mains : List (MainsName × DataFrame ColKey) := []
  appliances : List (ApplianceName × DataFrame ColKey) := []
  circuits : List (CircuitName × DataFrame ColKey) := []
deriving DecidableEq

/-- Modelled from the spec: the `utility` sub-tree of a building. -/
structure Utility where
  electric : Electric := {}
deriving DecidableEq

/-- Modelled from the spec: see `Electric`. -/
structure Building where
  utility : Utility := {}
deriving DecidableEq

/-- `DataSet.__init__`: `buildings` maps int building numbers to
`Building`s, `metadata` is a flat JSON object (spec section 6), held here
already parsed as string key/value pairs. -/
structure DataSet where
  buildings : List (Nat × Building) := []
  metadata : List (String × String) := []
deriving DecidableEq

/-! ## The HDF store and the on-disk directory -/

/-- A pandas `HDFStore`: a mapping from normalised path keys to tables.
`put` normalises its key exactly as the store does (leading slash added,
trailing slash stripped) and overwrites an existing binding; `keys()`
reports the normalised keys. -/
structure HStore where
  entries : List (List Char × DataFrame ColKey) := []
deriving DecidableEq

def HStore.put (st : HStore) (key : List Char) (df : DataFrame ColKey) : HStore :=
  ⟨dinsert (normalizeKey key) df st.entries⟩

/-- `store.keys()`. -/
def HStore.keyList (st : HStore) : List (List Char) :=
  st.entries.map Prod.fst

/-- `store[key]`; `none` is a `KeyError`. -/
def HStore.get (st : HStore) (key : List Char) : Option (DataFrame ColKey) :=
  List.lookup (normalizeKey key) st.entries

/-- The directory exchanged between `export` and `load_hdf5`: the parsed
content of `metadata.json` when that file exists, and the HDF store
(`pd.HDFStore` opens in mode `a` and creates an empty store when
`dataset.h5` is absent, so the store component is always present). -/
structure Directory where
  metadataFile : Option (List (String × String)) := none
  store : HStore := {}
deriving DecidableEq

/-! ## `DataSet.export` (HDF5 encode) -/

/-- The store key written for a mains series: the format string
`'/%d/utility/electric/mains/%d/%d/'` applied to
`(building_number, main.split, main.meter)`. -/
def mainsKeyRaw (building_number split meter : Nat) : List Char :=
  '/' :: (natChars building_number ++ "/utility/electric/mains/".toList
    ++ natChars split ++ '/' :: natChars meter ++ ['/'])

/-- The store key written for an appliance series: the format string
`'%d/utility/electric/appliances/%s/%d/'` applied to
`(building_number, appliance.name, appliance.instance)` (the source
format has no leading slash; the store adds it). -/
def applianceKeyRaw (building_number : Nat) (name : String) (inst : Nat) :
    List Char :=
  natChars building_number ++ "/utility/electric/appliances/".toList
    ++ name.toList ++ '/' :: natChars inst ++ ['/']

/-- `DataSet.export`: write `metadata.json`, then `put` every mains table
and every appliance table of every building under its path key.  The
source iterates dict keys and looks each value up (`mains[main]`); for a
dict (unique keys) that is the same as iterating the pairs, as done
here.  Circuits are not written by this path. -/
def DataSet.export (self : DataSet) : Directory :=
  let store : HStore :=
    self.buildings.foldl (fun store bb =>
      let electric := bb.2.utility.electric
      let store := electric.mains.foldl (fun store m =>
        store.put (mainsKeyRaw bb.1 m.1.split m.1.meter) m.2) store
      electric.appliances.foldl (fun store a =>
        store.put (applianceKeyRaw bb.1 a.1.name a.1.inst) a.2) store) {}
  { metadataFile := some self.metadata, store := store }

/-! ## `DataSet.load_hdf5` (HDF5 decode) -/

/-- Lift an optional value into `Except`, raising the named Python
exception when absent. -/
def orRaise : Option α → String → Except String α
  | some a, _ => .ok a
  | none, e => .error e

/-- The mains loop of `load_hdf5`: for each key, parse the last two path
segments as integers, build a `MainsName`, fetch the table and assign
`b.utility.electric.mains[mains_name] = store[key]`. -/
def loadMains (store : HStore) :
    List (List Char) → List (MainsName × DataFrame ColKey) →
      Except String (List (MainsName × DataFrame ColKey))
  | [], mains => .ok mains
  | key :: rest, mains => do
    let s ← orRaise (pyIdx (splitChar '/' key) (-2)) "IndexError"
    let mains_split ← orRaise (pyInt? s) "ValueError"
    let m ← orRaise (pyIdx (splitChar '/' key) (-1)) "IndexError"
    let mains_meter ← orRaise (pyInt? m) "ValueError"
    let mains_name : MainsName := ⟨mains_split, mains_meter⟩
    let df ← orRaise (store.get key) "KeyError"
    loadMains store rest (dinsert mains_name df mains)

/-- The appliances loop of `load_hdf5`: for each key, take the
second-to-last segment as the appliance name and parse the last segment
as the instance, fetch the table and assign. -/
def loadAppliances (store : HStore) :
    List (List Char) → List (ApplianceName × DataFrame ColKey) →
      Except String (List (ApplianceName × DataFrame ColKey))
  | [], appliances => .ok appliances
  | key :: rest, appliances => do
    let n ← orRaise (pyIdx (splitChar '/' key) (-2)) "IndexError"
    let i ← orRaise (pyIdx (splitChar '/' key) (-1)) "IndexError"
    let appliance_instance ← orRaise (pyInt? i) "ValueError"
    let appliance_name : ApplianceName := ⟨n.asString, appliance_instance⟩
    let df ← orRaise (store.get key) "KeyError"
    loadAppliances store rest (dinsert appliance_name df appliances)

/-- The per-building key filter of `load_hdf5`:
`[key for key in keys if key.split("/")[1] == building_number]`.  (When
this runs, every key was already indexed at position 1 by the
`building_numbers` comprehension, so the option comparison is exact.) -/
def buildKeys (keys : List (List Char)) (building_number : List Char) :
    List (List Char) :=
  keys.filter (fun key => pyIdx (splitChar '/' key) 1 == some building_number)

/-- Decoding of one building from its keys: filter by the substrings
`"utility"`, `"electric"`, `"mains"`, `"appliances"` and run the two
loops.  The length-guarded branches mirror the source: a fresh empty
mapping is assigned only when the corresponding key list is nonempty
(otherwise the `Building()` initial value stays). -/
def loadBuildingOfKeys (store : HStore) (keys_building : List (List Char)) :
    Except String Building := do
  let keys_utilities := keys_building.filter (fun k => pyContains "utility" k)
  if keys_utilities.length > 0 then
    let keys_electric := keys_utilities.filter (fun k => pyContains "electric" k)
    let keys_mains := keys_electric.filter (fun k => pyContains "mains" k)
    let mains ←
      if keys_mains.length > 0 then loadMains store keys_mains []
      else pure ({} : Electric).mains
    let keys_appliances := keys_electric.filter (fun k => pyContains "appliances" k)
    let appliances ←
      if keys_appliances.length > 0 then loadAppliances store keys_appliances []
      else pure ({} : Electric).appliances
    pure { utility := { electric :=
      { mains := mains, appliances := appliances, circuits := [] } } }
  else
    pure {}

/-- The list comprehension `[key.split("/")[1] for key in keys]` (an
`IndexError` when some key has no second segment). -/
def seg1List : List (List Char) → Except String (List (List Char))
  | [] => .ok []
  | key :: rest => do
    let s ← orRaise (pyIdx (splitChar '/' key) 1) "IndexError"
    let r ← seg1List rest
    .ok (s :: r)

/-- The building discovery and loop of `load_hdf5`.  `list(set(...))`
becomes `dedup` (one occurrence of each distinct second segment; the
enumeration order of a Python set is unspecified).  The source assigns
`self.buildings[int(bn)] = b` before populating `b` through the alias;
inserting the populated building afterwards is the same net effect. -/
def decodeBuildings (store : HStore) : Except String (List (Nat × Building)) := do
  let keys := store.keyList
  let seg1s ← seg1List keys
  let building_numbers := seg1s.dedup
  building_numbers.foldlM (fun buildings building_number => do
    let n ← orRaise (pyInt? building_number) "ValueError"
    let b ← loadBuildingOfKeys store (buildKeys keys building_number)
    pure (dinsert n b buildings)) []

/-- `DataSet.load_hdf5`: set `self.metadata` from `metadata.json` when
that file exists (otherwise the attribute keeps its previous value — the
source has no `else` branch), assign a fresh empty `self.buildings`, and
decode every building found in the store's key space. -/
def DataSet.load_hdf5 (self : DataSet) (directory : Directory) :
    Except String DataSet := do
  let metadata :=
    match directory.metadataFile with
    | some m => m
    | none => self.metadata
  let buildings ← decodeBuildings directory.store
  pure { buildings := buildings, metadata := metadata }

/-! ## `DataSet.export_csv` (CSV encode) -/

/-- `"%d" % n` as a Lean `String`. -/
def natStr (n : Nat) : String := (natChars n).asString

/-- The timestamp conversion `(df.index.astype(int) / 1e9).astype(int)`:
under the exact-rational model of float64 this divides the int64
nanosecond count by `10 ^ 9` and truncates toward zero. -/
def toUnixSeconds (ns : Int) : Int := Int.tdiv ns (10 ^ 9)

/-- The `float_format='%.2f'` value formatting, under the exact-rational
model of float64: round to the nearest hundredth (the model resolves an
exact tie upward; C `printf` resolves it on the binary value) and print
with exactly two decimal digits. -/
def formatVal2 (q : ℚ) : String :=
  let n : Int := round (q * 100)
  let sign := if n < 0 then "-" else ""
  let a : Nat := n.natAbs
  let frac : Nat := a % 100
  let fracChars : List Char :=
    if frac < 10 then '0' :: natChars frac else natChars frac
  sign ++ natStr (a / 100) ++ "." ++ fracChars.asString

/-- The name argument `create_path_df` receives: a mains, appliance or
circuit identifier (untyped in Python). -/
inductive DFName where
  | mains (m : MainsName)
  | appliances (a : ApplianceName)
  | circuits (c : CircuitName)
deriving DecidableEq

/-- `namedtuple_map`: the dict of per-category CSV file-name lambdas.  A
missing dict key is a `KeyError`, a lambda applied to a name without the
fields it reads is an `AttributeError`; both are `none` here. -/
def namedtuple_map (df_type : String) (x : DFName) : Option String :=
  if df_type = "mains" then
    match x with
    | .mains m => some (natStr m.split ++ "_" ++ natStr m.meter ++ ".csv")
    | _ => none
  else if df_type = "appliances" then
    match x with
    | .appliances a => some (a.name ++ "_" ++ natStr a.inst ++ ".csv")
    | _ => none
  else if df_type = "circuits" then
    match x with
    | .circuits c =>
      some (c.name ++ "_" ++ natStr c.split ++ "_" ++ natStr c.meter ++ ".csv")
    | _ => none
  else none

/-- `folder_path_map`: the dict of per-category directory lambdas (each
captures the building number). -/
def folder_path_map (df_type : String) (building_number : Nat) : Option String :=
  if df_type = "mains" then
    some ("building_" ++ natStr building_number ++ "/utility/electric/mains/")
  else if df_type = "appliances" then
    some ("building_" ++ natStr building_number ++ "/utility/electric/appliances/")
  else if df_type = "circuits" then
    some ("building_" ++ natStr building_number ++ "/utility/electric/circuits/")
  else none

/-- `column_mapping`: the dict mapping a column key to its CSV header;
`'dual'` reads `x.measurement.physical_quantity`, `x.measurement.type`
and `x.supply` (an `AttributeError` on a plain `Measurement`), `'single'`
reads `x.physical_quantity` and `x.type` (an `AttributeError` on a
`DualSupply`). -/
def column_mapping (column : String) (x : ColKey) : Option String :=
  if column = "dual" then
    match x with
    | .dual d =>
      some (d.measurement.physical_quantity ++ "_" ++ d.measurement.type
        ++ "_" ++ natStr d.supply)
    | .single _ => none
  else if column = "single" then
    match x with
    | .single m => some (m.physical_quantity ++ "_" ++ m.type)
    | .dual _ => none
  else none

/-- One CSV file written by `temp.to_csv(...)`: its path, the index
label, the renamed column headers, and the data rows (converted
timestamp plus the formatted values). -/
structure CsvFile where
  path : String
  index_label : String
  header : List String
  rows : List (Int × List String)
deriving DecidableEq

/-- `create_path_df(building_number, df_name, df, df_type, column)`:
compute the directory from `folder_path_map` (a `KeyError` if `df_type`
is not a dict key), copy the frame (`temp = df.copy()`), convert the
copy's index to epoch seconds, rename the copy's columns through
`column_mapping[column]`, and write the CSV.  The second component of the
result is the state of the argument `df` after the call — the source
mutates only the copy. -/
def create_path_df (directory : String) (building_number : Nat)
    (df_name : DFName) (df : DataFrame ColKey) (df_type column : String) :
    Except String (CsvFile × DataFrame ColKey) := do
  let dir_path ← orRaise (folder_path_map df_type building_number) "KeyError"
  let temp : DataFrame ColKey := df
  let temp : DataFrame ColKey := { temp with index := temp.index.map toUnixSeconds }
  let header ← orRaise (temp.columns.mapM (column_mapping column)) "AttributeError"
  let fname ← orRaise (namedtuple_map df_type df_name) "KeyError"
  let file : CsvFile :=
    { path := directory ++ "/" ++ dir_path ++ fname
      index_label := "timestamp"
      header := header
      rows := temp.index.zip (temp.values.map (fun row => row.map formatVal2)) }
  pure (file, df)

/-- Run a per-entry writer over one category's mapping in order, stopping
at the first raised error.  Returns the files written, the error if any,
and the mapping as it stands after the call (each processed entry holds
the frame state its call returned, unprocessed entries are untouched). -/
def processEntries
    (g : α → DataFrame ColKey → Except String (CsvFile × DataFrame ColKey)) :
    List (α × DataFrame ColKey) →
      List CsvFile × Option String × List (α × DataFrame ColKey)
  | [] => ([], none, [])
  | (k, df) :: rest =>
    match g k df with
    | .error e => ([], some e, (k, df) :: rest)
    | .ok (f, df') =>
      let r := processEntries g rest
      (f :: r.1, r.2.1, (k, df') :: r.2.2)

/-- The per-appliance dispatch of `export_csv`: inspect
`appliance_df.columns[0]` (an `IndexError` when the column list is
empty) and choose the `'dual'` or `'single'` column mapping by
`isinstance(appliance_df.columns[0], DualSupply)`. -/
def exportApplianceEntry (directory : String) (building_number : Nat)
    (appliance_name : ApplianceName) (appliance_df : DataFrame ColKey) :
    Except String (CsvFile × DataFrame ColKey) := do
  let c0 ← orRaise (pyIdx appliance_df.columns 0) "IndexError"
  match c0 with
  | .dual _ =>
    create_path_df directory building_number (.appliances appliance_name)
      appliance_df "appliances" "dual"
  | .single _ =>
    create_path_df directory building_number (.appliances appliance_name)
      appliance_df "appliances" "single"

/-- The per-building body of `export_csv`: mains (single), appliances
(dispatched), circuits — the circuits call passes the string `'circuit'`
exactly as the source does (the dispatch dicts are keyed `'circuits'`).
Returns files written, error if any, and the building's state after. -/
def export_csv_building (directory : String) (building_number : Nat)
    (building : Building) : List CsvFile × Option String × Building :=
  let electric := building.utility.electric
  let rm := processEntries (fun main_name main_df =>
    create_path_df directory building_number (.mains main_name) main_df
      "mains" "single") electric.mains
  match rm.2.1 with
  | some e => (rm.1, some e,
      { utility := { electric := { electric with mains := rm.2.2 } } })
  | none =>
    let ra := processEntries
      (exportApplianceEntry directory building_number) electric.appliances
    match ra.2.1 with
    | some e => (rm.1 ++ ra.1, some e,
        { utility := { electric :=
          { electric with mains := rm.2.2, appliances := ra.2.2 } } })
    | none =>
      let rc := processEntries (fun circuit_name circuit_df =>
        create_path_df directory building_number (.circuits circuit_name)
          circuit_df "circuit" "single") electric.circuits
      (rm.1 ++ ra.1 ++ rc.1, rc.2.1,
        { utility := { electric :=
          { electric with
            mains := rm.2.2
            appliances := ra.2.2
            circuits := rc.2.2 } } })

/-- The building loop of `export_csv`, stopping at the first error. -/
def exportCsvBuildings (directory : String) :
    List (Nat × Building) →
      List CsvFile × Option String × List (Nat × Building)
  | [] => ([], none, [])
  | (bn, b) :: rest =>
    let r := export_csv_building directory bn b
    match r.2.1 with
    | some e => (r.1, some e, (bn, r.2.2) :: rest)
    | none =>
      let rr := exportCsvBuildings directory rest
      (r.1 ++ rr.1, rr.2.1, (bn, r.2.2) :: rr.2.2)

/-- The outcome of `export_csv`: CSV files written, the propagated error
if any, the content written to `metadata.json`, and the in-memory
hierarchy as it stands after the call. -/
structure CsvOutcome where
  files : List CsvFile
  err : Option String
  metadataFile : List (String × String)
  state : DataSet
deriving DecidableEq

/-- `DataSet.export_csv`: write `metadata.json`, then per building write
mains, then appliances, then circuits. -/
def DataSet.export_csv (self : DataSet) (directory : String) : CsvOutcome :=
  let r := exportCsvBuildings directory self.buildings
  { files := r.1, err := r.2.1, metadataFile := self.metadata,
    state := { buildings := r.2.2, metadata := self.metadata } }

/-! ## `DataSet.load` (orchestration over the abstract hooks) -/

/-- The loop of `DataSet.load`: run `load_building` on each enumerated
name in order.  `load_building` is abstract (`NotImplementedError` in
this class; a subclass supplies it), so it is a parameter here: it
returns the dataset as mutated by the call plus the error it raised, if
any.  The result records the final dataset, the propagated error, and
the names on which `load_building` was actually invoked, in order. -/
def loadLoop (load_building : DataSet → β → DataSet × Option ε) :
    DataSet → List β → DataSet × Option ε × List β
  | ds, [] => (ds, none, [])
  | ds, b :: rest =>
    match load_building ds b with
    | (ds', none) =>
      let r := loadLoop load_building ds' rest
      (r.1, r.2.1, b :: r.2.2)
    | (ds', some e) => (ds', some e, [b])

/-- `DataSet.load`: call `load_building_names` once, then loop
`load_building` over the returned names. -/
def DataSet.load (self : DataSet)
    (load_building_names : String → List β)
    (load_building : DataSet → String → β → DataSet × Option ε)
    (root_directory : String) : DataSet × Option ε × List β :=
  loadLoop (fun ds b => load_building ds root_directory b) self
    (load_building_names root_directory)

/-- Fixture: a `load_building` hook that fails on building 3 and
otherwise inserts an empty building. -/
def wLoadBuilding (ds : DataSet) (_ : String) (b : Nat) :
    DataSet × Option String :=
  if b = 3 then (ds, some "SourceLoadError")
  else ({ buildings := dinsert b {} ds.buildings, metadata := ds.metadata }, none)

/-- Fixture: a dataset whose single building holds exactly one circuit
table and nothing else. -/
def circuitDS : DataSet :=
  { buildings := [(1, { utility := { electric :=
      { circuits := [(⟨"kitchen", 1, 2⟩, ⟨[], [], []⟩)] } } })] }

/-- Decidable equality for `Except` results, for concrete evaluations. -/
instance {ε α : Type} [DecidableEq ε] [DecidableEq α] :
    DecidableEq (Except ε α) := fun x y =>
  match x, y with
  | .ok a, .ok b =>
    if h : a = b then isTrue (by rw [h])
    else isFalse (fun he => h (by injection he))
  | .error a, .error b =>
    if h : a = b then isTrue (by rw [h])
    else isFalse (fun he => h (by injection he))
  | .ok _, .error _ => isFalse (fun he => by injection he)
  | .error _, .ok _ => isFalse (fun he => by injection he)

/-- Fixture: a one-row, one-column mains table at 2013-01-01T00:00:00Z
(1356998400000000000 ns) with value 123.456. -/
def wdf : DataFrame ColKey :=
  ⟨[1356998400000000000], [.single ⟨"power", "active"⟩], [[(123456 : ℚ) / 1000]]⟩

/-- Fixture: the CSV file `create_path_df` writes for `wdf` (the value
cell is the formatted 123.456, shown elsewhere to equal `"123.46"`). -/
def wfile : CsvFile :=
  ⟨"out/building_1/utility/electric/mains/1_2.csv", "timestamp",
    ["power_active"], [(1356998400, [formatVal2 ((123456 : ℚ) / 1000)])]⟩

/-- The seven path fields of a normalised mains key
`/B/utility/electric/mains/S/M`. -/
def mainsSegs (B S M : Nat) : List (List Char) :=
  [[], natChars B, "utility".toList, "electric".toList, "mains".toList,
    natChars S, natChars M]

/-- The normalised (canonical) form of a mains store key. -/
def mainsKeyC (B S M : Nat) : List Char := joinSegs '/' (mainsSegs B S M)

/-- The seven path fields of a normalised appliance key
`/B/utility/electric/appliances/name/I`. -/
def applianceSegs (B : Nat) (name : String) (I : Nat) : List (List Char) :=
  [[], natChars B, "utility".toList, "electric".toList, "appliances".toList,
    name.toList, natChars I]

/-- The normalised (canonical) form of an appliance store key. -/
def applianceKeyC (B : Nat) (name : String) (I : Nat) : List Char :=
  joinSegs '/' (applianceSegs B name I)

/-- An appliance name that survives the store path round trip: nonempty,
free of the path separator, and free of the substring `"mains"` (a name
containing `"mains"` routes its key into the mains decode branch, whose
integer parse of the name segment then fails). -/
def goodName (name : String) : Prop :=
  name ≠ "" ∧ '/' ∉ name.toList ∧ ¬ ("mains".toList <:+: name.toList)

instance (name : String) : Decidable (goodName name) := by
  unfold goodName
  infer_instance

/-- The hypotheses under which the HDF5 round trip is exact: building
numbers without duplicates, per-building identifier mappings without
duplicate keys, every building nonempty (a building with neither mains
nor appliances writes no store key and cannot be rediscovered), and
every appliance name a `goodName`. -/
def goodDataSet (D : DataSet) : Prop :=
  (D.buildings.map Prod.fst).Nodup ∧
  ∀ bb ∈ D.buildings,
    ((bb.2.utility.electric.mains.map Prod.fst).Nodup ∧
      (bb.2.utility.electric.appliances.map Prod.fst).Nodup) ∧
    (bb.2.utility.electric.mains ≠ [] ∨
      bb.2.utility.electric.appliances ≠ []) ∧
    ∀ a ∈ bb.2.utility.electric.appliances, goodName a.1.name

instance (D : DataSet) : Decidable (goodDataSet D) := by
  unfold goodDataSet
  infer_instance

/-- The `(normalised key, table)` pairs `export` writes for one
building, in order: mains first, then appliances. -/
def blockPairs (bb : Nat × Building) : List (List Char × DataFrame ColKey) :=
  bb.2.utility.electric.mains.map (fun m =>
    (mainsKeyC bb.1 m.1.split m.1.meter, m.2))
  ++ bb.2.utility.electric.appliances.map (fun a =>
    (applianceKeyC bb.1 a.1.name a.1.inst, a.2))

/-- All `(normalised key, table)` pairs `export` writes, in order. -/
def exportPairs (D : DataSet) : List (List Char × DataFrame ColKey) :=
  D.buildings.flatMap blockPairs

/-- The building `load_hdf5` reconstructs from one exported building:
same mains, same appliances, circuits empty (never decoded). -/
def strip (b : Building) : Building :=
  { utility := { electric :=
    { mains := b.utility.electric.mains,
      appliances := b.utility.electric.appliances, circuits := [] } } }

/-- Fixture: a building with no mains and no appliances — `export`
writes no store key for it, so the round trip loses it. -/
def emptyBuildingDS : DataSet := { buildings := [(7, {})] }

/-- Fixture: an appliance whose name contains the substring `"mains"`. -/
def mainsFridgeDS : DataSet :=
  { buildings := [(1, { utility := { electric :=
      { appliances := [(⟨"mains_fridge", 2⟩, ⟨[], [], []⟩)] } } })] }

/-- Fixture: a concrete two-series dataset for the round-trip witness. -/
def wRoundDS : DataSet :=
  { buildings := [(1, { utility := { electric :=
      { mains := [(⟨1, 2⟩, ⟨[], [], []⟩)],
        appliances := [(⟨"fridge", 1⟩, ⟨[], [], []⟩)] } } })],
    metadata := [("name", "X")] }

/-! ## Theorems -/

theorem digitChar_isDigit {d : Nat} (h : d < 10) : (digitChar d).isDigit := by
  interval_cases d <;> decide

theorem charVal_digitChar {d : Nat} (h : d < 10) : charVal (digitChar d) = d := by
  interval_cases d <;> decide

theorem isDigit_ne_slash {c : Char} (h : c.isDigit) : c ≠ '/' := by
  intro he; subst he; simp [Char.isDigit] at h

/-- `natCharsAux` agrees with Mathlib's `Nat.digits` (reversed, as
characters) whenever the fuel is sufficient. -/
theorem natCharsAux_eq_digits :
    ∀ fuel n, n < fuel →
      natCharsAux fuel n =
        if n = 0 then [digitChar 0]
        else ((Nat.digits 10 n).map digitChar).reverse := by
  intro fuel
  induction fuel with
  | zero => intro n h; omega
  | succ fuel ih =>
    intro n h
    by_cases h0 : n = 0
    · subst h0; simp [natCharsAux]
    by_cases h10 : n < 10
    · rw [natCharsAux, if_pos h10, if_neg h0]
      rw [Nat.digits_def' (by norm_num) (Nat.pos_of_ne_zero h0)]
      have hd : n / 10 = 0 := Nat.div_eq_of_lt h10
      have hm : n % 10 = n := Nat.mod_eq_of_lt h10
      simp [hd, hm]
    · rw [natCharsAux, if_neg h10, if_neg h0]
      have hdiv : n / 10 < fuel := by
        have : n / 10 < n := Nat.div_lt_self (Nat.pos_of_ne_zero h0) (by norm_num)
        omega
      have hdne : n / 10 ≠ 0 := by
        intro hz
        rw [Nat.div_eq_zero_iff (by norm_num)] at hz
        omega
      rw [ih (n / 10) hdiv, if_neg hdne]
      rw [Nat.digits_def' (b := 10) (by norm_num) (Nat.pos_of_ne_zero h0)]
      simp

theorem natChars_eq (n : Nat) :
    natChars n =
      if n = 0 then [digitChar 0]
      else ((Nat.digits 10 n).map digitChar).reverse :=
  natCharsAux_eq_digits (n + 1) n (Nat.lt_succ_self n)

theorem natChars_ne_nil (n : Nat) : natChars n ≠ [] := by
  rw [natChars_eq]
  by_cases h0 : n = 0
  · simp [h0]
  · rw [if_neg h0]
    simp only [ne_eq, List.reverse_eq_nil_iff, List.map_eq_nil_iff]
    exact Nat.digits_ne_nil_iff_ne_zero.mpr h0

theorem natChars_all_digits {n : Nat} {c : Char} (h : c ∈ natChars n) :
    c.isDigit := by
  rw [natChars_eq] at h
  by_cases h0 : n = 0
  · rw [if_pos h0] at h
    simp only [List.mem_singleton] at h
    subst h; decide
  · rw [if_neg h0] at h
    simp only [List.mem_reverse, List.mem_map] at h
    obtain ⟨d, hd, rfl⟩ := h
    exact digitChar_isDigit (Nat.digits_lt_base (by norm_num) hd)

/-- `foldr`-form of the decimal accumulator equals `Nat.ofDigits`. -/
theorem foldr_digits_ofDigits (ds : List Nat) :
    ds.foldr (fun d acc => 10 * acc + d) 0 = Nat.ofDigits 10 ds := by
  induction ds with
  | nil => simp [Nat.ofDigits]
  | cons d t ih => simp [Nat.ofDigits, ih]; ring

/-- The decimal accumulator ignores the `digitChar`/`charVal` round trip
on all-small-digit lists. -/
theorem foldr_charVal_digitChar :
    ∀ ds : List Nat, (∀ d ∈ ds, d < 10) →
      ds.foldr (fun d acc => 10 * acc + charVal (digitChar d)) 0
        = ds.foldr (fun d acc => 10 * acc + d) 0 := by
  intro ds
  induction ds with
  | nil => intro _; rfl
  | cons d t ih =>
    intro h
    simp only [List.foldr_cons]
    rw [ih (fun x hx => h x (List.mem_cons_of_mem d hx)),
      charVal_digitChar (h d (List.mem_cons_self ..))]

/-- Round trip: Python `int` applied to `"%d" % n` recovers `n`. -/
theorem pyInt?_natChars (n : Nat) : pyInt? (natChars n) = some n := by
  have hall : (natChars n).all Char.isDigit = true := by
    rw [List.all_eq_true]
    intro c hc
    exact natChars_all_digits hc
  rw [pyInt?, if_pos ⟨natChars_ne_nil n, hall⟩]
  congr 1
  by_cases h0 : n = 0
  · subst h0; rw [natChars_eq]; decide
  rw [natChars_eq, if_neg h0, List.foldl_reverse, List.foldr_map]
  rw [foldr_charVal_digitChar _ (fun d hd => Nat.digits_lt_base (by norm_num) hd),
    foldr_digits_ofDigits, Nat.ofDigits_digits]

theorem natChars_injective : Function.Injective natChars := by
  intro a b h
  have ha := pyInt?_natChars a
  have hb := pyInt?_natChars b
  rw [h, hb] at ha
  exact (Option.some.injEq ..).mp ha.symm

theorem slash_not_mem_natChars (n : Nat) : '/' ∉ natChars n := fun h =>
  isDigit_ne_slash (natChars_all_digits h) rfl

theorem splitChar_ne_nil (sep : Char) (l : List Char) : splitChar sep l ≠ [] := by
  cases l with
  | nil => simp [splitChar]
  | cons c cs =>
    rw [splitChar]
    by_cases h : c = sep
    · simp [h]
    · rw [if_neg h]
      cases splitChar sep cs <;> simp

theorem splitChar_of_not_mem {sep : Char} {l : List Char} (h : sep ∉ l) :
    splitChar sep l = [l] := by
  induction l with
  | nil => rfl
  | cons c cs ih =>
    simp only [List.mem_cons, not_or] at h
    rw [splitChar, if_neg (fun he => h.1 he.symm), ih h.2]

theorem splitChar_append_sep {sep : Char} {l₁ : List Char} (l₂ : List Char)
    (h : sep ∉ l₁) :
    splitChar sep (l₁ ++ sep :: l₂) = l₁ :: splitChar sep l₂ := by
  induction l₁ with
  | nil => simp [splitChar]
  | cons c cs ih =>
    simp only [List.mem_cons, not_or] at h
    rw [List.cons_append, splitChar, if_neg (fun he => h.1 he.symm), ih h.2]

theorem splitChar_joinSegs {sep : Char} :
    ∀ {segs : List (List Char)}, segs ≠ [] → (∀ s ∈ segs, sep ∉ s) →
      splitChar sep (joinSegs sep segs) = segs := by
  intro segs
  induction segs with
  | nil => intro h; exact absurd rfl h
  | cons s rest ih =>
    intro _ hall
    cases rest with
    | nil => exact splitChar_of_not_mem (hall s (List.mem_cons_self ..))
    | cons s' rest' =>
      rw [show joinSegs sep (s :: s' :: rest') = s ++ sep :: joinSegs sep (s' :: rest') from rfl,
        splitChar_append_sep _ (hall s (List.mem_cons_self ..)),
        ih (List.cons_ne_nil _ _) (fun x hx => hall x (List.mem_cons_of_mem s hx))]

/-- A list that is a prefix of `s ++ sep :: t` and avoids `sep` is already
a prefix of `s`. -/
theorem prefixAvoidSep {sep : Char} :
    ∀ {p s : List Char} {t : List Char}, sep ∉ p → p <+: s ++ sep :: t →
      p <+: s := by
  intro p
  induction p with
  | nil => intro s t _ _; exact List.nil_prefix
  | cons c cs ih =>
    intro s t hsep hp
    simp only [List.mem_cons, not_or] at hsep
    cases s with
    | nil =>
      rw [List.nil_append] at hp
      rcases List.cons_prefix_cons.mp hp with ⟨he, _⟩
      exact absurd he.symm hsep.1
    | cons a s' =>
      rw [List.cons_append] at hp
      rcases List.cons_prefix_cons.mp hp with ⟨he, hp'⟩
      subst he
      exact List.cons_prefix_cons.mpr ⟨rfl, ih hsep.2 hp'⟩

/-- A contiguous occurrence of a `sep`-free pattern in `s ++ sep :: t`
lies entirely inside `s` or entirely inside `t`. -/
theorem infixSplitSep {sep : Char} :
    ∀ {p s t : List Char}, sep ∉ p →
      (p <:+: s ++ sep :: t ↔ p <:+: s ∨ p <:+: t) := by
  intro p s t hsep
  constructor
  · intro h
    induction s with
    | nil =>
      rcases h with ⟨u, v, huv⟩
      rw [List.nil_append] at huv
      cases u with
      | nil =>
        cases p with
        | nil => exact Or.inl List.nil_infix
        | cons c cs =>
          simp only [List.nil_append, List.cons_append] at huv
          injection huv with h1 _
          simp only [List.mem_cons, not_or] at hsep
          exact absurd h1.symm hsep.1
      | cons a u' =>
        simp only [List.cons_append, List.append_assoc] at huv
        injection huv with _ h2
        exact Or.inr ⟨u', v, by rw [List.append_assoc]; exact h2⟩
    | cons a s' ih =>
      rcases h with ⟨u, v, huv⟩
      cases u with
      | nil =>
        rw [List.nil_append] at huv
        have hp : p <+: (a :: s') ++ sep :: t := ⟨v, huv⟩
        exact Or.inl (prefixAvoidSep hsep hp).isInfix
      | cons b u' =>
        simp only [List.cons_append, List.append_assoc] at huv
        injection huv with _ h2
        have hih := ih ⟨u', v, by rw [List.append_assoc]; exact h2⟩
        rcases hih with hl | hr
        · exact Or.inl (hl.trans ⟨[a], [], by simp⟩)
        · exact Or.inr hr
  · intro h
    rcases h with hl | hr
    · exact hl.trans ⟨[], sep :: t, rfl⟩
    · exact hr.trans ⟨s ++ [sep], [], by simp⟩

/-- Substring membership in a `sep`-joined field list reduces to substring
membership in one of the fields, provided the pattern avoids `sep`. -/
theorem infixJoinSegs {sep : Char} :
    ∀ {segs : List (List Char)} {p : List Char}, segs ≠ [] → sep ∉ p →
      (p <:+: joinSegs sep segs ↔ ∃ s ∈ segs, p <:+: s) := by
  intro segs
  induction segs with
  | nil => intro p h; exact absurd rfl h
  | cons s rest ih =>
    intro p _ hsep
    cases rest with
    | nil => simp [joinSegs]
    | cons s' rest' =>
      rw [show joinSegs sep (s :: s' :: rest') = s ++ sep :: joinSegs sep (s' :: rest') from rfl,
        infixSplitSep hsep, ih (List.cons_ne_nil _ _) hsep]
      simp

theorem pyContains_eq_true {pat : String} {key : List Char} :
    pyContains pat key = true ↔ pat.toList <:+: key := by
  simp [pyContains]

theorem dropTrailingSep_append_slash (l : List Char) :
    dropTrailingSep (l ++ ['/']) = dropTrailingSep l := by
  simp [dropTrailingSep, List.dropWhile]

theorem dropTrailingSep_append_of_ne {l : List Char} {c : Char} (h : c ≠ '/') :
    dropTrailingSep (l ++ [c]) = l ++ [c] := by
  simp [dropTrailingSep, List.dropWhile, h]

/-- A list whose last element is not `/` is unchanged by
`dropTrailingSep`. -/
theorem dropTrailingSep_of_last_ne {l : List Char} (hne : l ≠ [])
    (h : l.getLast hne ≠ '/') : dropTrailingSep l = l := by
  conv_lhs => rw [← List.dropLast_append_getLast hne]
  rw [dropTrailingSep_append_of_ne h, List.dropLast_append_getLast hne]

theorem ensureLeadingSlash_of_head {l : List Char} (h : l.head? = some '/') :
    ensureLeadingSlash l = l := by
  simp [ensureLeadingSlash, h]

theorem ensureLeadingSlash_of_head_ne {l : List Char} (h : l.head? ≠ some '/') :
    ensureLeadingSlash l = '/' :: l := by
  simp [ensureLeadingSlash, h]

/-- Helper for the `load` orchestration claim: if the loop succeeds on a
prefix `xs` reaching state `ds₁` and the very next call fails, the whole
loop stops there: the failing call's state is returned, and exactly
`xs ++ [y]` was attempted — the tail `ys` is never touched. -/
theorem loadLoop_abort {β ε : Type} (f : DataSet → β → DataSet × Option ε) :
    ∀ (self ds₁ ds₂ : DataSet) (xs ys : List β) (y : β) (e : ε),
      loadLoop f self xs = (ds₁, none, xs) →
      f ds₁ y = (ds₂, some e) →
      loadLoop f self (xs ++ y :: ys) = (ds₂, some e, xs ++ [y]) := by
  intro self ds₁ ds₂ xs
  induction xs generalizing self with
  | nil =>
    intro ys y e hpre hfail
    rw [loadLoop] at hpre
    injection hpre with h1 _
    subst h1
    simp only [List.nil_append, List.append_nil]
    rw [loadLoop, hfail]
  | cons x xs ih =>
    intro ys y e hpre hfail
    rw [List.cons_append, loadLoop]
    rw [loadLoop] at hpre
    rcases hfx : f self x with ⟨ds', e'⟩
    rw [hfx] at hpre
    cases e' with
    | some e'' =>
      simp only at hpre
      injection hpre with _ h23
      injection h23 with hco _
      exact absurd hco (by simp)
    | none =>
      simp only at hpre ⊢
      rcases hr : loadLoop f ds' xs with ⟨a, b, c⟩
      rw [hr] at hpre
      obtain ⟨h1, h2, h3⟩ : a = ds₁ ∧ b = none ∧ c = xs := by
        injection hpre with h1 h23
        injection h23 with h2 h3
        injection h3 with _ h3'
        exact ⟨h1, h2, h3'⟩
      subst h1 h2 h3
      rw [ih ds' ys y e hr hfail]
      rfl

/-- C6: `load` calls `load_building_names` once, then `load_building`
once per returned identifier in order; a failure at the k-th identifier
aborts immediately — the state accumulated by the earlier successful
calls (and by the failing call itself) is kept, and the identifiers after
the k-th are never attempted. -/
theorem load_orchestration {β ε : Type}
    (load_building_names : String → List β)
    (load_building : DataSet → String → β → DataSet × Option ε)
    (self ds₁ ds₂ : DataSet) (root : String) (xs ys : List β) (y : β) (e : ε)
    (hnames : load_building_names root = xs ++ y :: ys)
    (hpre : loadLoop (fun ds b => load_building ds root b) self xs
      = (ds₁, none, xs))
    (hfail : load_building ds₁ root y = (ds₂, some e)) :
    self.load load_building_names load_building root
      = (ds₂, some e, xs ++ [y]) := by
  rw [DataSet.load, hnames]
  exact loadLoop_abort _ self ds₁ ds₂ xs ys y e hpre hfail

/-- Witness for C6: five enumerated buildings, failure on the third —
buildings 1 and 2 are present afterwards, buildings 4 and 5 were never
attempted. -/
theorem load_orchestration_witness :
    DataSet.load {} (fun _ => [1, 2, 3, 4, 5]) wLoadBuilding "root"
      = ({ buildings := [(1, {}), (2, {})] }, some "SourceLoadError",
          [1, 2, 3]) :=
  load_orchestration (fun _ => [1, 2, 3, 4, 5]) wLoadBuilding {}
    { buildings := [(1, {}), (2, {})] } { buildings := [(1, {}), (2, {})] }
    "root" [1, 2] [4, 5] 3 "SourceLoadError" rfl (by decide) (by decide)

/-- C5 is false as stated: when `metadata.json` does not exist the
dataset's metadata is not cleared — the previous value survives the
call.  Concretely: a dataset holding metadata `name = REDD` loaded from
a directory with no metadata file still holds that metadata. -/
theorem load_hdf5_metadata_counterexample :
    DataSet.load_hdf5 { metadata := [("name", "REDD")] } {}
      = .ok { buildings := [], metadata := [("name", "REDD")] } ∧
    ([("name", "REDD")] : List (String × String)) ≠ [] := by
  exact ⟨rfl, by decide⟩

/-- C5 (amended): when `metadata.json` exists, `load_hdf5` sets the
dataset metadata to its parsed content; when it does not exist, the
metadata attribute is left unchanged (the source has no `else` branch),
so it is empty only if it already was. -/
theorem load_hdf5_metadata (self : DataSet) (dir : Directory) (r : DataSet)
    (h : self.load_hdf5 dir = .ok r) :
    r.metadata = (match dir.metadataFile with
      | some m => m
      | none => self.metadata) := by
  rw [DataSet.load_hdf5] at h
  cases hd : decodeBuildings dir.store with
  | error e =>
    rw [hd] at h
    simp [Bind.bind, Except.bind] at h
  | ok bs =>
    rw [hd] at h
    simp only [Bind.bind, Except.bind, pure, Except.pure] at h
    injection h with h'
    rw [← h']

/-- Witness for C5 (amended): a present metadata file wins. -/
theorem load_hdf5_metadata_witness :
    (DataSet.mk [] [("name", "X")]).metadata = [("name", "X")] :=
  load_hdf5_metadata {} { metadataFile := some [("name", "X")], store := {} }
    (DataSet.mk [] [("name", "X")]) (by decide)

/-- C10: `load_hdf5` starts from a fresh empty buildings mapping — the
decoded buildings are a function of the store's key space alone, so every
building present before the call is discarded, even when the store holds
no keys at all. -/
theorem load_hdf5_fresh_buildings :
    (∀ (self : DataSet) (dir : Directory) (r : DataSet),
        self.load_hdf5 dir = .ok r →
        decodeBuildings dir.store = .ok r.buildings) ∧
    (∀ (self : DataSet) (md : Option (List (String × String))),
        DataSet.load_hdf5 self { metadataFile := md, store := {} }
          = .ok { buildings := [],
                  metadata := match md with
                    | some m => m
                    | none => self.metadata }) := by
  constructor
  · intro self dir r h
    rw [DataSet.load_hdf5] at h
    cases hd : decodeBuildings dir.store with
    | error e =>
      rw [hd] at h
      simp [Bind.bind, Except.bind] at h
    | ok bs =>
      rw [hd] at h
      simp only [Bind.bind, Except.bind, pure, Except.pure] at h
      injection h with h'
      rw [← h']
  · intro self md
    cases md <;> rfl

/-- Witness for C10: a dataset with one building, loaded from an empty
store, comes back with no buildings. -/
theorem load_hdf5_fresh_buildings_witness :
    decodeBuildings ({} : Directory).store = .ok (DataSet.mk [] []).buildings :=
  load_hdf5_fresh_buildings.1 { buildings := [(5, {})] } {} (DataSet.mk [] [])
    (by decide)

/-- C2 is a code bug: the circuits call in `export_csv` passes the
dispatch key `'circuit'` while every dispatch dict is keyed `'circuits'`
(as the function's own docstring says), so exporting any building with a
circuit table raises `KeyError` and writes no circuit CSV at all —
instead of writing
`building_1/utility/electric/circuits/kitchen_1_2.csv` as the spec
claims.  The dicts themselves would produce exactly the claimed path
under the key `'circuits'`. -/
theorem export_csv_circuit_bug :
    (circuitDS.export_csv "out").err = some "KeyError" ∧
    (circuitDS.export_csv "out").files = [] ∧
    folder_path_map "circuit" 1 = none ∧
    folder_path_map "circuits" 1 = some "building_1/utility/electric/circuits/" ∧
    namedtuple_map "circuits" (.circuits ⟨"kitchen", 1, 2⟩)
      = some "kitchen_1_2.csv" := by
  refine ⟨rfl, rfl, rfl, ?_, ?_⟩ <;> decide

/-- C8: a dual-supply column `(power, active, supply 1)` is renamed to
`power_active_1`, a single `Measurement` column `(power, active)` to
`power_active`; and the appliance branch chooses the dual mapping exactly
when the table's first column key is a `DualSupply`. -/
theorem column_header_encoding :
    column_mapping "dual" (.dual ⟨⟨"power", "active"⟩, 1⟩)
      = some "power_active_1" ∧
    column_mapping "single" (.single ⟨"power", "active"⟩)
      = some "power_active" ∧
    (∀ (directory : String) (bn : Nat) (an : ApplianceName)
       (df : DataFrame ColKey) (d : DualSupply) (rest : List ColKey),
       df.columns = .dual d :: rest →
       exportApplianceEntry directory bn an df
         = create_path_df directory bn (.appliances an) df "appliances" "dual") ∧
    (∀ (directory : String) (bn : Nat) (an : ApplianceName)
       (df : DataFrame ColKey) (m : Measurement) (rest : List ColKey),
       df.columns = .single m :: rest →
       exportApplianceEntry directory bn an df
         = create_path_df directory bn (.appliances an) df "appliances" "single") := by
  refine ⟨by decide, by decide, ?_, ?_⟩
  · intro directory bn an df c rest hcol
    rw [exportApplianceEntry, hcol]
    have h0 : pyIdx (ColKey.dual c :: rest) 0 = some (.dual c) := by
      simp [pyIdx]
    rw [h0]
    rfl
  · intro directory bn an df c rest hcol
    rw [exportApplianceEntry, hcol]
    have h0 : pyIdx (ColKey.single c :: rest) 0 = some (.single c) := by
      simp [pyIdx]
    rw [h0]
    rfl

/-- Witness for C8: the dispatch at a concrete one-column dual table. -/
theorem column_header_encoding_witness :
    exportApplianceEntry "out" 1 ⟨"fridge", 1⟩
        ⟨[], [.dual ⟨⟨"power", "active"⟩, 1⟩], []⟩
      = create_path_df "out" 1 (.appliances ⟨"fridge", 1⟩)
          ⟨[], [.dual ⟨⟨"power", "active"⟩, 1⟩], []⟩ "appliances" "dual" :=
  column_header_encoding.2.2.1 "out" 1 ⟨"fridge", 1⟩ _ _ [] rfl

/-- Inversion for a `do` bind over `orRaise`: a successful run means the
option was populated and the continuation succeeded on its value. -/
theorem bind_orRaise_ok {α γ : Type} {o : Option α} {e : String}
    {f : α → Except String γ} {r : γ}
    (h : (do let x ← orRaise o e; f x) = .ok r) :
    ∃ a, o = some a ∧ f a = .ok r := by
  cases o with
  | none =>
    exact absurd h (by simp [orRaise, Bind.bind, Except.bind])
  | some a =>
    refine ⟨a, rfl, ?_⟩
    simpa [orRaise, Bind.bind, Except.bind] using h

/-- `create_path_df` returns its argument frame unchanged: the source
copies (`temp = df.copy()`) and mutates only the copy. -/
theorem create_path_df_frame {directory : String} {bn : Nat} {nm : DFName}
    {df : DataFrame ColKey} {t c : String} {file : CsvFile}
    {df' : DataFrame ColKey}
    (h : create_path_df directory bn nm df t c = .ok (file, df')) :
    df' = df := by
  rw [create_path_df] at h
  obtain ⟨dirp, h1, h⟩ := bind_orRaise_ok h
  obtain ⟨hdr, h2, h⟩ := bind_orRaise_ok h
  obtain ⟨fn, h3, h⟩ := bind_orRaise_ok h
  injection h with h'
  injection h' with _ h2'
  exact h2'.symm

/-- `exportApplianceEntry` returns its argument frame unchanged. -/
theorem exportApplianceEntry_frame {directory : String} {bn : Nat}
    {an : ApplianceName} {df : DataFrame ColKey} {file : CsvFile}
    {df' : DataFrame ColKey}
    (h : exportApplianceEntry directory bn an df = .ok (file, df')) :
    df' = df := by
  rw [exportApplianceEntry] at h
  obtain ⟨c0, h1, h⟩ := bind_orRaise_ok h
  cases c0 with
  | dual d => exact create_path_df_frame h
  | single m => exact create_path_df_frame h

/-- `processEntries` leaves the processed mapping unchanged whenever the
per-entry writer does. -/
theorem processEntries_frame
    {g : α → DataFrame ColKey → Except String (CsvFile × DataFrame ColKey)}
    (hg : ∀ k df file df', g k df = .ok (file, df') → df' = df) :
    ∀ l, (processEntries g l).2.2 = l := by
  intro l
  induction l with
  | nil => rfl
  | cons p rest ih =>
    rcases p with ⟨k, df⟩
    rw [processEntries]
    cases hx : g k df with
    | error e => rfl
    | ok fd =>
      rcases fd with ⟨f, df'⟩
      simp only
      rw [hg k df f df' hx, ih]

/-- The per-building CSV writer leaves the building unchanged. -/
theorem export_csv_building_state (d : String) (bn : Nat) (b : Building) :
    (export_csv_building d bn b).2.2 = b := by
  rcases b with ⟨⟨⟨bm, ba, bc⟩⟩⟩
  rw [export_csv_building]
  have hm := processEntries_frame
    (g := fun nm df => create_path_df d bn (.mains nm) df "mains" "single")
    (fun _ _ _ _ h => create_path_df_frame h) bm
  have ha := processEntries_frame
    (g := exportApplianceEntry d bn)
    (fun _ _ _ _ h => exportApplianceEntry_frame h) ba
  have hc := processEntries_frame
    (g := fun nm df => create_path_df d bn (.circuits nm) df "circuit" "single")
    (fun _ _ _ _ h => create_path_df_frame h) bc
  cases h1 : (processEntries (fun nm df =>
      create_path_df d bn (.mains nm) df "mains" "single") bm).2.1 with
  | some e => simp only [h1, hm]
  | none =>
    cases h2 : (processEntries (exportApplianceEntry d bn) ba).2.1 with
    | some e => simp only [h1, h2, hm, ha]
    | none => simp only [h1, h2, hm, ha, hc]

/-- The building loop of the CSV writer leaves the mapping unchanged. -/
theorem exportCsvBuildings_state (d : String) :
    ∀ l, (exportCsvBuildings d l).2.2 = l := by
  intro l
  induction l with
  | nil => rfl
  | cons p rest ih =>
    rcases p with ⟨bn, b⟩
    rw [exportCsvBuildings]
    cases hx : (export_csv_building d bn b).2.1 with
    | some e => simp only [hx, export_csv_building_state]
    | none => simp only [hx, export_csv_building_state, ih]

/-- C7: `export_csv` never mutates the in-memory hierarchy: the dataset
state after the call — with every per-call frame threaded back — equals
the input, on the success and on every error path, and the metadata
written is the dataset's own.  (`export` performs no table operation at
all: its embedding `DataSet.export` is a pure function of the dataset, so
the only table-touching code, `create_path_df`, is the one threaded
here; it operates on a copy.) -/
theorem export_csv_frame_effect :
    ∀ (self : DataSet) (directory : String),
      (self.export_csv directory).state = self ∧
      (self.export_csv directory).metadataFile = self.metadata := by
  intro self directory
  rcases self with ⟨bs, md⟩
  rw [DataSet.export_csv]
  exact ⟨by simp only [exportCsvBuildings_state], rfl⟩

/-- C4: every CSV row carries the index entry divided by `10 ^ 9` and
truncated to an integer (exact Unix seconds for the in-range timestamps
the store holds) and every value formatted to exactly two decimals; in
particular 2013-01-01T00:00:00Z (1356998400000000000 ns) encodes to
`1356998400`, and 123.456 encodes to `123.46` (float64 is modelled as
exact rational arithmetic throughout). -/
theorem csv_row_encoding :
    (∀ (directory : String) (bn : Nat) (nm : DFName) (df : DataFrame ColKey)
       (t c : String) (file : CsvFile) (df' : DataFrame ColKey),
       create_path_df directory bn nm df t c = .ok (file, df') →
       file.rows = (df.index.map toUnixSeconds).zip
           (df.values.map (fun row => row.map formatVal2)) ∧
       file.index_label = "timestamp") ∧
    toUnixSeconds 1356998400000000000 = 1356998400 ∧
    formatVal2 ((123456 : ℚ) / 1000) = "123.46" := by
  refine ⟨?_, by decide, ?_⟩
  case refine_2 =>
    have hr : round ((123456 : ℚ) / 1000 * 100) = 12346 := by
      norm_num [round_eq]
    rw [formatVal2, hr]
    decide
  intro directory bn nm df t c file df' h
  rw [create_path_df] at h
  obtain ⟨dirp, h1, h⟩ := bind_orRaise_ok h
  obtain ⟨hdr, h2, h⟩ := bind_orRaise_ok h
  obtain ⟨fn, h3, h⟩ := bind_orRaise_ok h
  injection h with h'
  injection h' with hfile _
  constructor
  · rw [← hfile]
  · rw [← hfile]

/-- Witness for C4: the concrete table `wdf` produces exactly the row
`(1356998400, ["123.46"])`. -/
theorem csv_row_encoding_witness :
    create_path_df "out" 1 (.mains ⟨1, 2⟩) wdf "mains" "single"
      = .ok (wfile, wdf) ∧
    wfile.rows = (wdf.index.map toUnixSeconds).zip
        (wdf.values.map (fun row => row.map formatVal2)) ∧
    wfile.index_label = "timestamp" := by
  have h := csv_row_encoding.1 "out" 1 (.mains ⟨1, 2⟩) wdf "mains" "single"
    wfile wdf rfl
  exact ⟨rfl, h.1, h.2⟩

/-- The raw mains format string is the canonical key plus the trailing
slash. -/
theorem mainsKeyRaw_eq (B S M : Nat) :
    mainsKeyRaw B S M = mainsKeyC B S M ++ ['/'] := by
  simp only [mainsKeyRaw, mainsKeyC, mainsSegs, joinSegs, List.append_assoc,
    List.cons_append, List.nil_append,
    show "/utility/electric/mains/".toList
      = '/' :: ("utility".toList ++ '/' :: ("electric".toList
        ++ '/' :: ("mains".toList ++ ['/']))) from rfl]

/-- The raw appliance format string (no leading slash) is the canonical
key without its leading slash, plus the trailing slash. -/
theorem applianceKeyRaw_eq (B : Nat) (name : String) (I : Nat) :
    applianceKeyRaw B name I
      = joinSegs '/' [natChars B, "utility".toList, "electric".toList,
          "appliances".toList, name.toList, natChars I] ++ ['/'] := by
  simp only [applianceKeyRaw, joinSegs, List.append_assoc, List.cons_append,
    List.nil_append,
    show "/utility/electric/appliances/".toList
      = '/' :: ("utility".toList ++ '/' :: ("electric".toList
        ++ '/' :: ("appliances".toList ++ ['/']))) from rfl]

/-- A list ending in a printed number is unchanged by
`dropTrailingSep`. -/
theorem dropTrailingSep_digit_suffix {C : List Char} {n : Nat}
    (h : natChars n <:+ C) : dropTrailingSep C = C := by
  obtain ⟨X, rfl⟩ := h
  conv_lhs =>
    rw [← List.dropLast_append_getLast (natChars_ne_nil n),
      ← List.append_assoc]
  rw [dropTrailingSep_append_of_ne
    (isDigit_ne_slash (natChars_all_digits (List.getLast_mem _)))]
  rw [List.append_assoc, List.dropLast_append_getLast (natChars_ne_nil n)]

theorem mainsKeyC_digit_suffix (B S M : Nat) :
    natChars M <:+ mainsKeyC B S M := by
  refine ⟨'/' :: (natChars B ++ '/' :: ("utility".toList
    ++ '/' :: ("electric".toList ++ '/' :: ("mains".toList
      ++ '/' :: (natChars S ++ ['/']))))), ?_⟩
  simp [mainsKeyC, mainsSegs, joinSegs]

theorem applianceTail_digit_suffix (B : Nat) (name : String) (I : Nat) :
    natChars I <:+ joinSegs '/' [natChars B, "utility".toList,
      "electric".toList, "appliances".toList, name.toList, natChars I] := by
  refine ⟨natChars B ++ '/' :: ("utility".toList
    ++ '/' :: ("electric".toList ++ '/' :: ("appliances".toList
      ++ '/' :: (name.toList ++ ['/'])))), ?_⟩
  simp [joinSegs]

/-- `put`ting the raw mains key stores it under its canonical form. -/
theorem normalizeKey_mainsKeyRaw (B S M : Nat) :
    normalizeKey (mainsKeyRaw B S M) = mainsKeyC B S M := by
  rw [normalizeKey, mainsKeyRaw_eq, dropTrailingSep_append_slash,
    dropTrailingSep_digit_suffix (mainsKeyC_digit_suffix B S M)]
  have hh : (mainsKeyC B S M).head? = some '/' := rfl
  rw [ensureLeadingSlash_of_head hh]

/-- The canonical mains key is already in normal form. -/
theorem normalizeKey_mainsKeyC (B S M : Nat) :
    normalizeKey (mainsKeyC B S M) = mainsKeyC B S M := by
  rw [normalizeKey,
    dropTrailingSep_digit_suffix (mainsKeyC_digit_suffix B S M)]
  have hh : (mainsKeyC B S M).head? = some '/' := rfl
  rw [ensureLeadingSlash_of_head hh]

/-- `put`ting the raw appliance key stores it under its canonical form
(the store supplies the missing leading slash). -/
theorem normalizeKey_applianceKeyRaw (B : Nat) (name : String) (I : Nat) :
    normalizeKey (applianceKeyRaw B name I) = applianceKeyC B name I := by
  rw [normalizeKey, applianceKeyRaw_eq, dropTrailingSep_append_slash,
    dropTrailingSep_digit_suffix (applianceTail_digit_suffix B name I)]
  obtain ⟨c, cs, hB⟩ := List.exists_cons_of_ne_nil (natChars_ne_nil B)
  have hhead : (joinSegs '/' [natChars B, "utility".toList,
      "electric".toList, "appliances".toList, name.toList,
      natChars I]).head? ≠ some '/' := by
    rw [show joinSegs '/' [natChars B, "utility".toList, "electric".toList,
        "appliances".toList, name.toList, natChars I]
      = natChars B ++ '/' :: joinSegs '/' ["utility".toList,
          "electric".toList, "appliances".toList, name.toList,
          natChars I] from rfl, hB]
    intro hcon
    simp only [List.cons_append, List.head?_cons, Option.some.injEq] at hcon
    exact isDigit_ne_slash
      (natChars_all_digits (hB ▸ List.mem_cons_self ..)) hcon
  rw [ensureLeadingSlash_of_head_ne hhead]
  rfl

/-- The canonical appliance key is already in normal form. -/
theorem normalizeKey_applianceKeyC (B : Nat) (name : String) (I : Nat) :
    normalizeKey (applianceKeyC B name I) = applianceKeyC B name I := by
  have h : natChars I <:+ applianceKeyC B name I := by
    obtain ⟨X, hX⟩ := applianceTail_digit_suffix B name I
    exact ⟨'/' :: X, by rw [show applianceKeyC B name I
      = '/' :: joinSegs '/' [natChars B, "utility".toList,
        "electric".toList, "appliances".toList, name.toList,
        natChars I] from rfl, ← hX]; rfl⟩
  rw [normalizeKey, dropTrailingSep_digit_suffix h]
  have hh : (applianceKeyC B name I).head? = some '/' := rfl
  rw [ensureLeadingSlash_of_head hh]

/-- Splitting the canonical mains key recovers its seven fields. -/
theorem splitChar_mainsKeyC (B S M : Nat) :
    splitChar '/' (mainsKeyC B S M) = mainsSegs B S M := by
  refine splitChar_joinSegs (by simp [mainsSegs]) ?_
  intro s hs
  simp only [mainsSegs, List.mem_cons, List.not_mem_nil, or_false] at hs
  rcases hs with rfl | rfl | rfl | rfl | rfl | rfl | rfl
  · simp
  · exact slash_not_mem_natChars B
  · decide
  · decide
  · decide
  · exact slash_not_mem_natChars S
  · exact slash_not_mem_natChars M

/-- Splitting the canonical appliance key recovers its seven fields,
provided the name is free of the separator. -/
theorem splitChar_applianceKeyC (B : Nat) {name : String} (I : Nat)
    (hname : '/' ∉ name.toList) :
    splitChar '/' (applianceKeyC B name I) = applianceSegs B name I := by
  refine splitChar_joinSegs (by simp [applianceSegs]) ?_
  intro s hs
  simp only [applianceSegs, List.mem_cons, List.not_mem_nil, or_false] at hs
  rcases hs with rfl | rfl | rfl | rfl | rfl | rfl | rfl
  · simp
  · exact slash_not_mem_natChars B
  · decide
  · decide
  · decide
  · exact hname
  · exact slash_not_mem_natChars I

theorem pyIdx_seven_one (a0 a1 a2 a3 a4 a5 a6 : List Char) :
    pyIdx [a0, a1, a2, a3, a4, a5, a6] 1 = some a1 := by
  simp [pyIdx]

theorem pyIdx_seven_neg2 (a0 a1 a2 a3 a4 a5 a6 : List Char) :
    pyIdx [a0, a1, a2, a3, a4, a5, a6] (-2) = some a5 := by
  norm_num [pyIdx]
  rfl

theorem pyIdx_seven_neg1 (a0 a1 a2 a3 a4 a5 a6 : List Char) :
    pyIdx [a0, a1, a2, a3, a4, a5, a6] (-1) = some a6 := by
  norm_num [pyIdx]
  rfl

theorem pyContains_eq_false {pat : String} {key : List Char} :
    pyContains pat key = false ↔ ¬ pat.toList <:+: key := by
  simp [pyContains]

/-- `"mains"` cannot occur inside a printed number. -/
theorem mains_not_in_natChars (n : Nat) :
    ¬ ("mains".toList <:+: natChars n) := fun h => by
  have hm : 'm' ∈ natChars n := h.subset (by decide)
  have := natChars_all_digits hm
  simp at this

/-- `"appliances"` cannot occur inside a printed number. -/
theorem appliances_not_in_natChars (n : Nat) :
    ¬ ("appliances".toList <:+: natChars n) := fun h => by
  have hm : 'p' ∈ natChars n := h.subset (by decide)
  have := natChars_all_digits hm
  simp at this

theorem utility_in_mainsKeyC (B S M : Nat) :
    pyContains "utility" (mainsKeyC B S M) = true := by
  rw [pyContains_eq_true, mainsKeyC,
    infixJoinSegs (by simp [mainsSegs]) (by decide)]
  exact ⟨"utility".toList, by simp [mainsSegs], List.infix_refl _⟩

theorem electric_in_mainsKeyC (B S M : Nat) :
    pyContains "electric" (mainsKeyC B S M) = true := by
  rw [pyContains_eq_true, mainsKeyC,
    infixJoinSegs (by simp [mainsSegs]) (by decide)]
  exact ⟨"electric".toList, by simp [mainsSegs], List.infix_refl _⟩

theorem mains_in_mainsKeyC (B S M : Nat) :
    pyContains "mains" (mainsKeyC B S M) = true := by
  rw [pyContains_eq_true, mainsKeyC,
    infixJoinSegs (by simp [mainsSegs]) (by decide)]
  exact ⟨"mains".toList, by simp [mainsSegs], List.infix_refl _⟩

theorem utility_in_applianceKeyC (B : Nat) (name : String) (I : Nat) :
    pyContains "utility" (applianceKeyC B name I) = true := by
  rw [pyContains_eq_true, applianceKeyC,
    infixJoinSegs (by simp [applianceSegs]) (by decide)]
  exact ⟨"utility".toList, by simp [applianceSegs], List.infix_refl _⟩

theorem electric_in_applianceKeyC (B : Nat) (name : String) (I : Nat) :
    pyContains "electric" (applianceKeyC B name I) = true := by
  rw [pyContains_eq_true, applianceKeyC,
    infixJoinSegs (by simp [applianceSegs]) (by decide)]
  exact ⟨"electric".toList, by simp [applianceSegs], List.infix_refl _⟩

theorem appliances_in_applianceKeyC (B : Nat) (name : String) (I : Nat) :
    pyContains "appliances" (applianceKeyC B name I) = true := by
  rw [pyContains_eq_true, applianceKeyC,
    infixJoinSegs (by simp [applianceSegs]) (by decide)]
  exact ⟨"appliances".toList, by simp [applianceSegs], List.infix_refl _⟩

/-- A mains key never contains `"appliances"`. -/
theorem appliances_not_in_mainsKeyC (B S M : Nat) :
    pyContains "appliances" (mainsKeyC B S M) = false := by
  rw [pyContains_eq_false, mainsKeyC,
    infixJoinSegs (by simp [mainsSegs]) (by decide)]
  rintro ⟨seg, hseg, hinf⟩
  simp only [mainsSegs, List.mem_cons, List.not_mem_nil, or_false] at hseg
  rcases hseg with rfl | rfl | rfl | rfl | rfl | rfl | rfl
  · rw [List.infix_nil] at hinf; exact absurd hinf (by decide)
  · exact appliances_not_in_natChars B hinf
  · exact absurd hinf (by decide)
  · exact absurd hinf (by decide)
  · exact absurd hinf (by decide)
  · exact appliances_not_in_natChars S hinf
  · exact appliances_not_in_natChars M hinf

/-- An appliance key whose name avoids the substring `"mains"` never
contains `"mains"`. -/
theorem mains_not_in_applianceKeyC (B : Nat) {name : String} (I : Nat)
    (hname : ¬ ("mains".toList <:+: name.toList)) :
    pyContains "mains" (applianceKeyC B name I) = false := by
  rw [pyContains_eq_false, applianceKeyC,
    infixJoinSegs (by simp [applianceSegs]) (by decide)]
  rintro ⟨seg, hseg, hinf⟩
  simp only [applianceSegs, List.mem_cons, List.not_mem_nil, or_false] at hseg
  rcases hseg with rfl | rfl | rfl | rfl | rfl | rfl | rfl
  · rw [List.infix_nil] at hinf; exact absurd hinf (by decide)
  · exact mains_not_in_natChars B hinf
  · exact absurd hinf (by decide)
  · exact absurd hinf (by decide)
  · exact absurd hinf (by decide)
  · exact hname hinf
  · exact mains_not_in_natChars I hinf

theorem asString_toList (s : String) : s.toList.asString = s := rfl

/-- Inserting a fresh key appends. -/
theorem dinsert_append {K V : Type} [DecidableEq K] (k : K) (v : V) :
    ∀ (l : List (K × V)), k ∉ l.map Prod.fst →
      dinsert k v l = l ++ [(k, v)] := by
  intro l
  induction l with
  | nil => intro _; rfl
  | cons p rest ih =>
    intro h
    simp only [List.map_cons, List.mem_cons, not_or] at h
    rcases p with ⟨k', v'⟩
    rw [dinsert, if_neg (fun he => h.1 he.symm), ih h.2, List.cons_append]

/-- Association-list lookup under key uniqueness. -/
theorem lookup_of_mem_nodup {K V : Type} [BEq K] [LawfulBEq K] :
    ∀ {l : List (K × V)}, (l.map Prod.fst).Nodup →
      ∀ {k : K} {v : V}, (k, v) ∈ l → List.lookup k l = some v := by
  intro l
  induction l with
  | nil => intro _ k v h; simp at h
  | cons p rest ih =>
    intro hn k v hm
    rcases p with ⟨k', v'⟩
    simp only [List.map_cons, List.nodup_cons] at hn
    rw [List.lookup]
    rcases List.mem_cons.mp hm with heq | hm'
    · obtain ⟨rfl, rfl⟩ := Prod.mk.injEq .. ▸ heq
      rw [show (k == k) = true from beq_self_eq_true k]
    · have hne : (k == k') = false := by
        rw [beq_eq_false_iff_ne]
        intro he
        subst he
        exact hn.1 (List.mem_map.mpr ⟨(k, v), hm', rfl⟩)
      rw [hne]
      exact ih hn.2 hm'

/-- Folding fresh inserts over an association list appends in order. -/
theorem foldl_dinsert_append {K V : Type} [DecidableEq K] :
    ∀ (pairs init : List (K × V)),
      ((init ++ pairs).map Prod.fst).Nodup →
      pairs.foldl (fun st p => dinsert p.1 p.2 st) init = init ++ pairs := by
  intro pairs
  induction pairs with
  | nil => intro init _; simp
  | cons p rest ih =>
    intro init hn
    rcases p with ⟨k, v⟩
    rw [List.foldl_cons]
    have hk : k ∉ init.map Prod.fst := by
      intro hk
      rw [List.map_append] at hn
      exact (List.disjoint_of_nodup_append hn) hk
        (by simp)
    rw [dinsert_append k v init hk, ih (init ++ [(k, v)]) (by simpa using hn)]
    simp

theorem mainsKeyC_inj {B S M B' S' M' : Nat}
    (h : mainsKeyC B S M = mainsKeyC B' S' M') :
    B = B' ∧ S = S' ∧ M = M' := by
  have hs := congrArg (splitChar '/') h
  rw [splitChar_mainsKeyC, splitChar_mainsKeyC] at hs
  simp only [mainsSegs, List.cons.injEq, and_true, true_and] at hs
  exact ⟨natChars_injective hs.1, natChars_injective hs.2.1,
    natChars_injective hs.2.2⟩

theorem applianceKeyC_inj {B I B' I' : Nat} {name name' : String}
    (hn : '/' ∉ name.toList) (hn' : '/' ∉ name'.toList)
    (h : applianceKeyC B name I = applianceKeyC B' name' I') :
    B = B' ∧ name = name' ∧ I = I' := by
  have hs := congrArg (splitChar '/') h
  rw [splitChar_applianceKeyC _ _ hn, splitChar_applianceKeyC _ _ hn'] at hs
  simp only [applianceSegs, List.cons.injEq, and_true, true_and] at hs
  refine ⟨natChars_injective hs.1, ?_, natChars_injective hs.2.2⟩
  have := congrArg List.asString hs.2.1
  rwa [asString_toList, asString_toList] at this

theorem mainsKeyC_ne_applianceKeyC {B S M B' I : Nat} {name : String}
    (hn : '/' ∉ name.toList) :
    mainsKeyC B S M ≠ applianceKeyC B' name I := by
  intro h
  have hs := congrArg (splitChar '/') h
  rw [splitChar_mainsKeyC, splitChar_applianceKeyC _ _ hn] at hs
  simp only [mainsSegs, applianceSegs, List.cons.injEq] at hs
  exact absurd hs.2.2.2.2.1 (by decide)

theorem seg1_mainsKeyC (B S M : Nat) :
    pyIdx (splitChar '/' (mainsKeyC B S M)) 1 = some (natChars B) := by
  rw [splitChar_mainsKeyC, mainsSegs]
  exact pyIdx_seven_one ..

theorem seg1_applianceKeyC (B : Nat) {name : String} (I : Nat)
    (hn : '/' ∉ name.toList) :
    pyIdx (splitChar '/' (applianceKeyC B name I)) 1 = some (natChars B) := by
  rw [splitChar_applianceKeyC _ _ hn, applianceSegs]
  exact pyIdx_seven_one ..

theorem foldl_put_mains (B : Nat) :
    ∀ (ms : List (MainsName × DataFrame ColKey)) (st : HStore),
      ms.foldl (fun store m =>
        store.put (mainsKeyRaw B m.1.split m.1.meter) m.2) st
      = ⟨(ms.map (fun m => (mainsKeyC B m.1.split m.1.meter, m.2))).foldl
          (fun es p => dinsert p.1 p.2 es) st.entries⟩ := by
  intro ms
  induction ms with
  | nil => intro st; rfl
  | cons m rest ih =>
    intro st
    have hput : (st.put (mainsKeyRaw B m.1.split m.1.meter) m.2).entries
        = dinsert (mainsKeyC B m.1.split m.1.meter) m.2 st.entries := by
      rw [HStore.put, normalizeKey_mainsKeyRaw]
    rw [List.foldl_cons, ih, hput, List.map_cons, List.foldl_cons]

theorem foldl_put_appliances (B : Nat) :
    ∀ (as' : List (ApplianceName × DataFrame ColKey)) (st : HStore),
      as'.foldl (fun store a =>
        store.put (applianceKeyRaw B a.1.name a.1.inst) a.2) st
      = ⟨(as'.map (fun a => (applianceKeyC B a.1.name a.1.inst, a.2))).foldl
          (fun es p => dinsert p.1 p.2 es) st.entries⟩ := by
  intro as'
  induction as' with
  | nil => intro st; rfl
  | cons a rest ih =>
    intro st
    have hput : (st.put (applianceKeyRaw B a.1.name a.1.inst) a.2).entries
        = dinsert (applianceKeyC B a.1.name a.1.inst) a.2 st.entries := by
      rw [HStore.put, normalizeKey_applianceKeyRaw]
    rw [List.foldl_cons, ih, hput, List.map_cons, List.foldl_cons]

theorem export_fold_general :
    ∀ (bs : List (Nat × Building)) (st : HStore),
      (bs.foldl (fun store bb =>
        let electric := bb.2.utility.electric
        let store := electric.mains.foldl (fun store m =>
          store.put (mainsKeyRaw bb.1 m.1.split m.1.meter) m.2) store
        electric.appliances.foldl (fun store a =>
          store.put (applianceKeyRaw bb.1 a.1.name a.1.inst) a.2) store) st).entries
      = (bs.flatMap blockPairs).foldl (fun es p => dinsert p.1 p.2 es)
          st.entries := by
  intro bs
  induction bs with
  | nil => intro st; rfl
  | cons bb rest ih =>
    intro st
    rw [List.foldl_cons, ih, List.flatMap_cons, List.foldl_append]
    congr 1
    rw [foldl_put_appliances, foldl_put_mains, blockPairs, List.foldl_append]

/-- The store `export` builds holds exactly the canonical pairs, folded
in order. -/
theorem export_store_foldPairs (D : DataSet) :
    (DataSet.export D).store.entries
      = (exportPairs D).foldl (fun es p => dinsert p.1 p.2 es) [] := by
  rw [DataSet.export]
  exact export_fold_general D.buildings {}

theorem mainsName_key_injective (B : Nat) :
    Function.Injective (fun nm : MainsName => mainsKeyC B nm.split nm.meter) := by
  intro a b h
  obtain ⟨-, h1, h2⟩ := mainsKeyC_inj h
  cases a; cases b; simp_all

/-- Every key of a building's block carries that building's number as
its second path field. -/
theorem blockPairs_seg1 {bb : Nat × Building}
    (hgood : ∀ a ∈ bb.2.utility.electric.appliances, goodName a.1.name) :
    ∀ k ∈ (blockPairs bb).map Prod.fst,
      pyIdx (splitChar '/' k) 1 = some (natChars bb.1) := by
  intro k hk
  rw [blockPairs, List.map_append, List.map_map, List.map_map] at hk
  rcases List.mem_append.mp hk with hk' | hk'
  · obtain ⟨m, _, rfl⟩ := List.mem_map.mp hk'
    exact seg1_mainsKeyC ..
  · obtain ⟨a, ha, rfl⟩ := List.mem_map.mp hk'
    exact seg1_applianceKeyC _ _ (hgood a ha).2.1

/-- Under `goodDataSet`, every exported key is distinct. -/
theorem exportPairs_keys_nodup {D : DataSet} (hg : goodDataSet D) :
    ((exportPairs D).map Prod.fst).Nodup := by
  rw [exportPairs, List.map_flatMap, List.nodup_flatMap]
  constructor
  · intro bb hbb
    obtain ⟨⟨hmn, han⟩, -, hgood⟩ := hg.2 bb hbb
    rw [blockPairs, List.map_append, List.map_map, List.map_map,
      List.nodup_append]
    refine ⟨?_, ?_, ?_⟩
    · rw [show (Prod.fst ∘ fun m : MainsName × DataFrame ColKey =>
          (mainsKeyC bb.1 m.1.split m.1.meter, m.2))
        = (fun nm : MainsName => mainsKeyC bb.1 nm.split nm.meter)
            ∘ Prod.fst from rfl, ← List.map_map]
      exact hmn.map (mainsName_key_injective bb.1)
    · rw [show (Prod.fst ∘ fun a : ApplianceName × DataFrame ColKey =>
          (applianceKeyC bb.1 a.1.name a.1.inst, a.2))
        = (fun an : ApplianceName => applianceKeyC bb.1 an.name an.inst)
            ∘ Prod.fst from rfl, ← List.map_map]
      refine List.Nodup.map_on ?_ han
      intro x hx y hy hxy
      obtain ⟨x', hx', rfl⟩ := List.mem_map.mp hx
      obtain ⟨y', hy', rfl⟩ := List.mem_map.mp hy
      obtain ⟨-, h1, h2⟩ := applianceKeyC_inj (hgood x' hx').2.1
        (hgood y' hy').2.1 hxy
      cases hxf : x'.1
      cases hyf : y'.1
      simp_all
    · intro k hk1 hk2
      obtain ⟨m, -, rfl⟩ := List.mem_map.mp hk1
      obtain ⟨a, ha, he⟩ := List.mem_map.mp hk2
      exact mainsKeyC_ne_applianceKeyC (hgood a ha).2.1 he.symm
  · have hp : List.Pairwise (fun a b : Nat × Building => a.1 ≠ b.1)
        D.buildings := by
      have := hg.1
      rwa [List.Nodup, List.pairwise_map] at this
    refine hp.imp_of_mem ?_
    intro a b ha hb hab k hka hkb
    have h1 := blockPairs_seg1 (hg.2 a ha).2.2 k hka
    have h2 := blockPairs_seg1 (hg.2 b hb).2.2 k hkb
    rw [h1] at h2
    exact hab (natChars_injective (Option.some.injEq .. ▸ h2 : _))

/-- Under `goodDataSet`, the exported store is exactly the pair list. -/
theorem export_store_entries {D : DataSet} (hg : goodDataSet D) :
    (DataSet.export D).store = ⟨exportPairs D⟩ := by
  have h3 : (DataSet.export D).store.entries = exportPairs D := by
    rw [export_store_foldPairs,
      foldl_dinsert_append (exportPairs D) []
        (by simpa using exportPairs_keys_nodup hg)]
    rfl
  calc (DataSet.export D).store = ⟨(DataSet.export D).store.entries⟩ := rfl
    _ = ⟨exportPairs D⟩ := by rw [h3]

/-- Evaluate a `do` bind whose head computation is known. -/
theorem bind_eval {α γ : Type} {m : Except String α} {a : α}
    (h : m = .ok a) (f : α → Except String γ) :
    (do let x ← m; f x) = f a := by
  rw [h]
  rfl

/-- Evaluate a `do` bind over a populated `orRaise`. -/
theorem bind_orRaise_some {α γ : Type} {o : Option α} {a : α}
    (h : o = some a) (e : String) (f : α → Except String γ) :
    (do let x ← orRaise o e; f x) = f a := by
  rw [h]
  rfl

/-- `dedup` of a constant nonempty run followed by a tail free of that
value: the run collapses to one occurrence in front. -/
theorem dedup_const_append {β : Type} [DecidableEq β] :
    ∀ (l : List β) (a : β) (R : List β), l ≠ [] → (∀ y ∈ l, y = a) →
      a ∉ R → (l ++ R).dedup = a :: R.dedup := by
  intro l
  induction l with
  | nil => intro a R h _ _; exact absurd rfl h
  | cons b l' ih =>
    intro a R _ hall haR
    have hb : b = a := hall b (List.mem_cons_self ..)
    subst hb
    cases l' with
    | nil => rw [List.singleton_append, List.dedup_cons_of_not_mem haR]
    | cons c l'' =>
      have hmem : b ∈ (c :: l'') ++ R := by
        have hc : c = b := hall c (by simp)
        simp [hc]
      rw [List.cons_append, List.dedup_cons_of_mem hmem]
      exact ih b R (by simp)
        (fun y hy => hall y (List.mem_cons_of_mem _ hy)) haR

/-- `dedup` of per-element constant blocks enumerates the per-element
values once each. -/
theorem dedup_flat_blocks {α β : Type} [DecidableEq β] :
    ∀ (xs : List α) (g : α → List β) (v : α → β),
      (∀ x ∈ xs, g x ≠ [] ∧ ∀ y ∈ g x, y = v x) → (xs.map v).Nodup →
      (xs.flatMap g).dedup = xs.map v := by
  intro xs
  induction xs with
  | nil => intro g v _ _; rfl
  | cons x xs ih =>
    intro g v hall hnd
    rw [List.flatMap_cons, List.map_cons]
    simp only [List.map_cons, List.nodup_cons] at hnd
    have hvx : v x ∉ xs.flatMap g := by
      intro hmem
      obtain ⟨x', hx', hy⟩ := List.mem_flatMap.mp hmem
      have heq := (hall x' (List.mem_cons_of_mem _ hx')).2 _ hy
      exact hnd.1 (List.mem_map.mpr ⟨x', hx', heq.symm⟩)
    rw [dedup_const_append (g x) (v x) (xs.flatMap g)
      (hall x (List.mem_cons_self ..)).1 (hall x (List.mem_cons_self ..)).2
      hvx,
      ih g v (fun y hy => hall y (List.mem_cons_of_mem _ hy)) hnd.2]

/-- `seg1List` over a constant-field chunk followed by a processed
tail. -/
theorem seg1List_chunk {v : List Char} {l₂ : List (List Char)}
    {v₂ : List (List Char)} (h₂ : seg1List l₂ = .ok v₂) :
    ∀ {l₁ : List (List Char)},
      (∀ k ∈ l₁, pyIdx (splitChar '/' k) 1 = some v) →
      seg1List (l₁ ++ l₂) = .ok (l₁.map (fun _ => v) ++ v₂) := by
  intro l₁
  induction l₁ with
  | nil => intro _; simpa using h₂
  | cons k rest ih =>
    intro h
    rw [List.cons_append, seg1List,
      bind_orRaise_some (h k (List.mem_cons_self ..)),
      bind_eval (ih (fun x hx => h x (List.mem_cons_of_mem _ hx)))]
    rfl

/-- The second path fields of all exported keys, building by
building. -/
theorem seg1List_blocks :
    ∀ (bs : List (Nat × Building)),
      (∀ bb ∈ bs, ∀ a ∈ bb.2.utility.electric.appliances, goodName a.1.name) →
      seg1List ((bs.flatMap blockPairs).map Prod.fst)
        = .ok (bs.flatMap (fun bb =>
            (blockPairs bb).map (fun _ => natChars bb.1))) := by
  intro bs
  induction bs with
  | nil => intro _; rfl
  | cons bb rest ih =>
    intro hgood
    rw [List.flatMap_cons, List.map_append, List.flatMap_cons]
    rw [seg1List_chunk (ih (fun x hx => hgood x (List.mem_cons_of_mem _ hx)))
      (blockPairs_seg1 (hgood bb (List.mem_cons_self ..)))]
    rw [List.map_map]
    rfl

/-- A building's own keys all pass its `buildKeys` filter. -/
theorem buildKeys_self {bb : Nat × Building}
    (hgood : ∀ a ∈ bb.2.utility.electric.appliances, goodName a.1.name) :
    ((blockPairs bb).map Prod.fst).filter (fun key =>
        pyIdx (splitChar '/' key) 1 == some (natChars bb.1))
      = (blockPairs bb).map Prod.fst := by
  rw [List.filter_eq_self]
  intro k hk
  rw [blockPairs_seg1 hgood k hk]
  exact beq_self_eq_true _

/-- Another building's keys all fail the filter. -/
theorem buildKeys_other {bb : Nat × Building} {b' : Nat}
    (hgood : ∀ a ∈ bb.2.utility.electric.appliances, goodName a.1.name)
    (hne : bb.1 ≠ b') :
    ((blockPairs bb).map Prod.fst).filter (fun key =>
        pyIdx (splitChar '/' key) 1 == some (natChars b'))
      = [] := by
  rw [List.filter_eq_nil_iff]
  intro k hk
  rw [blockPairs_seg1 hgood k hk]
  simp only [beq_iff_eq, Option.some.injEq]
  intro he
  exact hne (natChars_injective he)

/-- `buildKeys` over the whole exported key space selects exactly the
named building's block. -/
theorem buildKeys_export :
    ∀ (bs : List (Nat × Building)),
      (∀ bb ∈ bs, ∀ a ∈ bb.2.utility.electric.appliances, goodName a.1.name) →
      (bs.map Prod.fst).Nodup →
      ∀ bb ∈ bs,
        buildKeys ((bs.flatMap blockPairs).map Prod.fst) (natChars bb.1)
          = (blockPairs bb).map Prod.fst := by
  intro bs
  induction bs with
  | nil => intro _ _ bb hbb; simp at hbb
  | cons hd tl ih =>
    intro hgood hnd bb hbb
    simp only [List.map_cons, List.nodup_cons] at hnd
    rw [List.flatMap_cons, List.map_append, buildKeys, List.filter_append]
    rcases List.mem_cons.mp hbb with rfl | hbb'
    · rw [buildKeys_self (hgood bb (List.mem_cons_self ..))]
      have htl : ((tl.flatMap blockPairs).map Prod.fst).filter (fun key =>
          pyIdx (splitChar '/' key) 1 == some (natChars bb.1)) = [] := by
        rw [List.filter_eq_nil_iff]
        intro k hk
        rw [List.map_flatMap] at hk
        obtain ⟨bb', hbb', hk'⟩ := List.mem_flatMap.mp hk
        rw [blockPairs_seg1 (hgood bb' (List.mem_cons_of_mem _ hbb')) k hk']
        simp only [beq_iff_eq, Option.some.injEq]
        intro he
        exact hnd.1 (natChars_injective he ▸
          List.mem_map.mpr ⟨bb', hbb', rfl⟩)
      rw [htl, List.append_nil]
    · have hne : hd.1 ≠ bb.1 := by
        intro he
        exact hnd.1 (he ▸ List.mem_map.mpr ⟨bb, hbb', rfl⟩)
      rw [buildKeys_other (hgood hd (List.mem_cons_self ..)) hne]
      have := ih (fun x hx => hgood x (List.mem_cons_of_mem _ hx)) hnd.2
        bb hbb'
      rw [buildKeys] at this
      rw [this, List.nil_append]

/-- The mains loop over a building's exported mains keys reproduces the
mains mapping. -/
theorem loadMains_export {store : HStore} (B : Nat) :
    ∀ (ms acc : List (MainsName × DataFrame ColKey)),
      (∀ m ∈ ms, store.get (mainsKeyC B m.1.split m.1.meter) = some m.2) →
      ((acc ++ ms).map Prod.fst).Nodup →
      loadMains store (ms.map (fun m => mainsKeyC B m.1.split m.1.meter)) acc
        = .ok (acc ++ ms) := by
  intro ms
  induction ms with
  | nil => intro acc _ _; simp [loadMains]
  | cons m rest ih =>
    intro acc hget hnd
    have h2 : pyIdx (splitChar '/' (mainsKeyC B m.1.split m.1.meter)) (-2)
        = some (natChars m.1.split) := by
      rw [splitChar_mainsKeyC, mainsSegs]
      exact pyIdx_seven_neg2 ..
    have h3 : pyIdx (splitChar '/' (mainsKeyC B m.1.split m.1.meter)) (-1)
        = some (natChars m.1.meter) := by
      rw [splitChar_mainsKeyC, mainsSegs]
      exact pyIdx_seven_neg1 ..
    rw [List.map_cons, loadMains, bind_orRaise_some h2,
      bind_orRaise_some (pyInt?_natChars m.1.split), bind_orRaise_some h3,
      bind_orRaise_some (pyInt?_natChars m.1.meter),
      bind_orRaise_some (hget m (List.mem_cons_self ..))]
    have hfresh : m.1 ∉ acc.map Prod.fst := by
      intro hmem
      rw [List.map_append] at hnd
      exact (List.disjoint_of_nodup_append hnd) hmem (by simp)
    have hdin : dinsert (⟨m.1.split, m.1.meter⟩ : MainsName) m.2 acc
        = acc ++ [m] := by
      have hm1 : (⟨m.1.split, m.1.meter⟩ : MainsName) = m.1 := rfl
      have hm2 : ((m.1, m.2) : MainsName × DataFrame ColKey) = m := rfl
      rw [hm1, dinsert_append _ _ _ hfresh, hm2]
    rw [hdin, ih (acc ++ [m])
      (fun x hx => hget x (List.mem_cons_of_mem _ hx))
      (by simpa [List.append_assoc] using hnd)]
    simp

/-- The appliances loop over a building's exported appliance keys
reproduces the appliance mapping. -/
theorem loadAppliances_export {store : HStore} (B : Nat) :
    ∀ (as' acc : List (ApplianceName × DataFrame ColKey)),
      (∀ a ∈ as', goodName a.1.name) →
      (∀ a ∈ as', store.get (applianceKeyC B a.1.name a.1.inst) = some a.2) →
      ((acc ++ as').map Prod.fst).Nodup →
      loadAppliances store
          (as'.map (fun a => applianceKeyC B a.1.name a.1.inst)) acc
        = .ok (acc ++ as') := by
  intro as'
  induction as' with
  | nil => intro acc _ _ _; simp [loadAppliances]
  | cons a rest ih =>
    intro acc hgood hget hnd
    have h2 : pyIdx (splitChar '/' (applianceKeyC B a.1.name a.1.inst)) (-2)
        = some a.1.name.toList := by
      rw [splitChar_applianceKeyC _ _ (hgood a (List.mem_cons_self ..)).2.1,
        applianceSegs]
      exact pyIdx_seven_neg2 ..
    have h3 : pyIdx (splitChar '/' (applianceKeyC B a.1.name a.1.inst)) (-1)
        = some (natChars a.1.inst) := by
      rw [splitChar_applianceKeyC _ _ (hgood a (List.mem_cons_self ..)).2.1,
        applianceSegs]
      exact pyIdx_seven_neg1 ..
    rw [List.map_cons, loadAppliances, bind_orRaise_some h2,
      bind_orRaise_some h3, bind_orRaise_some (pyInt?_natChars a.1.inst),
      bind_orRaise_some (hget a (List.mem_cons_self ..))]
    have hfresh : (⟨a.1.name.toList.asString, a.1.inst⟩ : ApplianceName)
        ∉ acc.map Prod.fst := by
      rw [show (⟨a.1.name.toList.asString, a.1.inst⟩ : ApplianceName)
        = a.1 from rfl]
      intro hmem
      rw [List.map_append] at hnd
      exact (List.disjoint_of_nodup_append hnd) hmem (by simp)
    have hdin : dinsert (⟨a.1.name.toList.asString, a.1.inst⟩ : ApplianceName)
        a.2 acc = acc ++ [a] := by
      rw [dinsert_append _ _ _ hfresh,
        show (⟨a.1.name.toList.asString, a.1.inst⟩ : ApplianceName)
          = a.1 from rfl,
        show ((a.1, a.2) : ApplianceName × DataFrame ColKey) = a from rfl]
    rw [hdin, ih (acc ++ [a])
      (fun x hx => hgood x (List.mem_cons_of_mem _ hx))
      (fun x hx => hget x (List.mem_cons_of_mem _ hx))
      (by simpa [List.append_assoc] using hnd)]
    simp

/-- Decoding one building from its own exported keys reconstructs the
building (with empty circuits). -/
theorem loadBuildingOfKeys_block {store : HStore} (b : Nat)
    (Ml : List (MainsName × DataFrame ColKey))
    (Al : List (ApplianceName × DataFrame ColKey))
    (Cl : List (CircuitName × DataFrame ColKey))
    (hgood : ∀ a ∈ Al, goodName a.1.name)
    (hnm : (Ml.map Prod.fst).Nodup) (hna : (Al.map Prod.fst).Nodup)
    (hne : Ml ≠ [] ∨ Al ≠ [])
    (hgetm : ∀ m ∈ Ml, store.get (mainsKeyC b m.1.split m.1.meter) = some m.2)
    (hgeta : ∀ a ∈ Al,
      store.get (applianceKeyC b a.1.name a.1.inst) = some a.2) :
    loadBuildingOfKeys store
        ((blockPairs (b, ⟨⟨⟨Ml, Al, Cl⟩⟩⟩)).map Prod.fst)
      = .ok (strip ⟨⟨⟨Ml, Al, Cl⟩⟩⟩) := by
  have hkeys : (blockPairs (b, (⟨⟨⟨Ml, Al, Cl⟩⟩⟩ : Building))).map Prod.fst
      = Ml.map (fun m => mainsKeyC b m.1.split m.1.meter)
        ++ Al.map (fun a => applianceKeyC b a.1.name a.1.inst) := by
    rw [blockPairs, List.map_append, List.map_map, List.map_map]
    rfl
  rw [hkeys, loadBuildingOfKeys]
  have hu : (Ml.map (fun m => mainsKeyC b m.1.split m.1.meter)
      ++ Al.map (fun a => applianceKeyC b a.1.name a.1.inst)).filter
        (fun k => pyContains "utility" k)
      = Ml.map (fun m => mainsKeyC b m.1.split m.1.meter)
        ++ Al.map (fun a => applianceKeyC b a.1.name a.1.inst) := by
    rw [List.filter_eq_self]
    intro k hk
    rcases List.mem_append.mp hk with hk' | hk'
    · obtain ⟨m, -, rfl⟩ := List.mem_map.mp hk'
      exact utility_in_mainsKeyC ..
    · obtain ⟨a, -, rfl⟩ := List.mem_map.mp hk'
      exact utility_in_applianceKeyC ..
  rw [hu]
  have he : (Ml.map (fun m => mainsKeyC b m.1.split m.1.meter)
      ++ Al.map (fun a => applianceKeyC b a.1.name a.1.inst)).filter
        (fun k => pyContains "electric" k)
      = Ml.map (fun m => mainsKeyC b m.1.split m.1.meter)
        ++ Al.map (fun a => applianceKeyC b a.1.name a.1.inst) := by
    rw [List.filter_eq_self]
    intro k hk
    rcases List.mem_append.mp hk with hk' | hk'
    · obtain ⟨m, -, rfl⟩ := List.mem_map.mp hk'
      exact electric_in_mainsKeyC ..
    · obtain ⟨a, -, rfl⟩ := List.mem_map.mp hk'
      exact electric_in_applianceKeyC ..
  rw [he]
  have hlen : 0 < (Ml.map (fun m => mainsKeyC b m.1.split m.1.meter)
      ++ Al.map (fun a => applianceKeyC b a.1.name a.1.inst)).length := by
    rw [List.length_append, List.length_map, List.length_map]
    rcases hne with h | h
    · exact Nat.add_pos_left (List.length_pos.mpr h) _
    · exact Nat.add_pos_right _ (List.length_pos.mpr h)
  rw [if_pos hlen]
  dsimp only
  have hm : (Ml.map (fun m => mainsKeyC b m.1.split m.1.meter)
      ++ Al.map (fun a => applianceKeyC b a.1.name a.1.inst)).filter
        (fun k => pyContains "mains" k)
      = Ml.map (fun m => mainsKeyC b m.1.split m.1.meter) := by
    rw [List.filter_append, List.filter_eq_self.mpr ?_,
      List.filter_eq_nil_iff.mpr ?_, List.append_nil]
    · intro k hk
      obtain ⟨a, ha, rfl⟩ := List.mem_map.mp hk
      rw [mains_not_in_applianceKeyC _ _ (hgood a ha).2.2]
      simp
    · intro k hk
      obtain ⟨m, -, rfl⟩ := List.mem_map.mp hk
      exact mains_in_mainsKeyC ..
  rw [hm]
  have happl : (Ml.map (fun m => mainsKeyC b m.1.split m.1.meter)
      ++ Al.map (fun a => applianceKeyC b a.1.name a.1.inst)).filter
        (fun k => pyContains "appliances" k)
      = Al.map (fun a => applianceKeyC b a.1.name a.1.inst) := by
    rw [List.filter_append, List.filter_eq_nil_iff.mpr ?_,
      List.filter_eq_self.mpr ?_, List.nil_append]
    · intro k hk
      obtain ⟨a, -, rfl⟩ := List.mem_map.mp hk
      exact appliances_in_applianceKeyC ..
    · intro k hk
      obtain ⟨m, -, rfl⟩ := List.mem_map.mp hk
      rw [appliances_not_in_mainsKeyC]
      simp
  rw [happl]
  by_cases hM : Ml = []
  · subst hM
    rw [if_neg (by simp)]
    rw [bind_eval (show (pure ({} : Electric).mains : Except String _)
      = .ok [] from rfl)]
    have hA : Al ≠ [] := by
      rcases hne with h | h
      · exact absurd rfl h
      · exact h
    rw [if_pos (by rw [List.length_map]; exact List.length_pos.mpr hA)]
    rw [bind_eval
      (loadAppliances_export b Al [] hgood hgeta (by simpa using hna))]
    rfl
  · rw [if_pos (by rw [List.length_map]; exact List.length_pos.mpr hM)]
    rw [bind_eval (loadMains_export b Ml [] hgetm (by simpa using hnm))]
    by_cases hA : Al = []
    · subst hA
      rw [if_neg (by simp)]
      rw [bind_eval (show (pure ({} : Electric).appliances
        : Except String _) = .ok [] from rfl)]
      rfl
    · rw [if_pos (by rw [List.length_map]; exact List.length_pos.mpr hA)]
      rw [bind_eval
        (loadAppliances_export b Al [] hgood hgeta (by simpa using hna))]
      rfl

/-- The building loop of `decodeBuildings` over printed building numbers
whose keys decode cleanly. -/
theorem decode_fold {store : HStore} (keys : List (List Char)) :
    ∀ (bs acc : List (Nat × Building)),
      (∀ bb ∈ bs, loadBuildingOfKeys store (buildKeys keys (natChars bb.1))
        = .ok (strip bb.2)) →
      (acc.map Prod.fst ++ bs.map Prod.fst).Nodup →
      List.foldlM (fun buildings building_number => do
          let n ← orRaise (pyInt? building_number) "ValueError"
          let b ← loadBuildingOfKeys store (buildKeys keys building_number)
          pure (dinsert n b buildings))
        acc (bs.map (fun bb => natChars bb.1))
      = .ok (acc ++ bs.map (fun bb => (bb.1, strip bb.2))) := by
  intro bs
  induction bs with
  | nil =>
    intro acc _ _
    simp only [List.map_nil, List.foldlM_nil, List.append_nil]
    rfl
  | cons bb rest ih =>
    intro acc hload hnd
    rw [List.map_cons]
    simp only [List.foldlM_cons]
    rw [bind_orRaise_some (pyInt?_natChars bb.1),
      bind_eval (hload bb (List.mem_cons_self ..)),
      bind_eval (show (pure (dinsert bb.1 (strip bb.2) acc)
        : Except String _) = .ok (dinsert bb.1 (strip bb.2) acc) from rfl)]
    have hfresh : bb.1 ∉ acc.map Prod.fst := by
      intro hmem
      exact (List.disjoint_of_nodup_append hnd) hmem (by simp)
    rw [dinsert_append _ _ _ hfresh,
      ih (acc ++ [(bb.1, strip bb.2)])
        (fun x hx => hload x (List.mem_cons_of_mem _ hx))
        (by simpa [List.append_assoc] using hnd)]
    simp

/-- Decoding the exported store reconstructs every building (circuits
excepted) under `goodDataSet`. -/
theorem decodeBuildings_exportPairs {D : DataSet} (hg : goodDataSet D) :
    decodeBuildings ⟨exportPairs D⟩
      = .ok (D.buildings.map (fun bb => (bb.1, strip bb.2))) := by
  rw [decodeBuildings]
  try dsimp only
  rw [show HStore.keyList ⟨exportPairs D⟩
    = (D.buildings.flatMap blockPairs).map Prod.fst from rfl]
  rw [bind_eval (seg1List_blocks D.buildings
    (fun bb hbb => (hg.2 bb hbb).2.2))]
  try dsimp only
  have hded : (D.buildings.flatMap (fun bb =>
      (blockPairs bb).map (fun _ => natChars bb.1))).dedup
      = D.buildings.map (fun bb => natChars bb.1) := by
    refine dedup_flat_blocks _ _ _ ?_ ?_
    · intro bb hbb
      constructor
      · simp only [ne_eq, List.map_eq_nil_iff]
        intro hbp
        rw [blockPairs, List.append_eq_nil] at hbp
        rcases (hg.2 bb hbb).2.1 with h | h
        · exact h (List.map_eq_nil_iff.mp hbp.1)
        · exact h (List.map_eq_nil_iff.mp hbp.2)
      · intro y hy
        obtain ⟨-, -, rfl⟩ := List.mem_map.mp hy
        rfl
    · rw [show (fun bb : Nat × Building => natChars bb.1)
        = natChars ∘ Prod.fst from rfl, ← List.map_map]
      exact hg.1.map natChars_injective
  rw [hded]
  have hload : ∀ bb ∈ D.buildings,
      loadBuildingOfKeys (⟨exportPairs D⟩ : HStore)
        (buildKeys ((D.buildings.flatMap blockPairs).map Prod.fst)
          (natChars bb.1))
      = .ok (strip bb.2) := by
    intro bb hbb
    rw [buildKeys_export D.buildings (fun x hx => (hg.2 x hx).2.2) hg.1
      bb hbb]
    obtain ⟨b, bld⟩ := bb
    obtain ⟨⟨⟨Ml, Al, Cl⟩⟩⟩ := bld
    refine loadBuildingOfKeys_block b Ml Al Cl
      ((hg.2 _ hbb).2.2) ((hg.2 _ hbb).1.1) ((hg.2 _ hbb).1.2)
      ((hg.2 _ hbb).2.1) ?_ ?_
    · intro m hm
      rw [HStore.get, normalizeKey_mainsKeyC]
      exact lookup_of_mem_nodup (exportPairs_keys_nodup hg)
        (List.mem_flatMap.mpr ⟨_, hbb, List.mem_append_left _
          (List.mem_map.mpr ⟨m, hm, rfl⟩)⟩)
    · intro a ha
      rw [HStore.get, normalizeKey_applianceKeyC]
      exact lookup_of_mem_nodup (exportPairs_keys_nodup hg)
        (List.mem_flatMap.mpr ⟨_, hbb, List.mem_append_right _
          (List.mem_map.mpr ⟨a, ha, rfl⟩)⟩)
  have := decode_fold ((D.buildings.flatMap blockPairs).map Prod.fst)
    D.buildings [] hload (by simpa using hg.1)
  simpa using this

/-- C1 is false as stated: a building with no mains and no appliance
series writes no store key, so the round trip drops it — the rebuilt
dataset does not have the same building-number set. -/
theorem export_load_hdf5_counterexample :
    DataSet.load_hdf5 {} (DataSet.export emptyBuildingDS)
      = .ok { buildings := [], metadata := [] } ∧
    emptyBuildingDS.buildings.map Prod.fst = [7] ∧
    ([] : List Nat) ≠ [7] :=
  ⟨rfl, rfl, by decide⟩

/-- C1 (amended): for a dataset whose building numbers are distinct,
whose per-building mains/appliance keys are distinct, whose buildings
each hold at least one mains or appliance series, and whose appliance
names are nonempty, slash-free and free of the substring `"mains"`,
`export` followed by `load_hdf5` reconstructs the dataset exactly: the
same building numbers, and per building the same mains mapping and the
same appliance mapping with the very same tables (circuits, which
`export` never writes, come back empty). -/
theorem export_load_hdf5_roundtrip (D ds₀ : DataSet) (hg : goodDataSet D) :
    ∃ D', DataSet.load_hdf5 ds₀ (DataSet.export D) = .ok D' ∧
      D'.metadata = D.metadata ∧
      D'.buildings.map Prod.fst = D.buildings.map Prod.fst ∧
      D'.buildings = D.buildings.map (fun bb => (bb.1, strip bb.2)) := by
  refine ⟨⟨D.buildings.map (fun bb => (bb.1, strip bb.2)), D.metadata⟩,
    ?_, rfl, by simp, rfl⟩
  rw [DataSet.load_hdf5]
  rw [show (DataSet.export D).store = ⟨exportPairs D⟩
    from export_store_entries hg]
  try dsimp only
  rw [bind_eval (decodeBuildings_exportPairs hg)]
  rfl

/-- Witness for C1 (amended): a concrete one-building dataset with one
mains and one appliance series round-trips. -/
theorem export_load_hdf5_roundtrip_witness :
    ∃ D', DataSet.load_hdf5 {} (DataSet.export wRoundDS) = .ok D' ∧
      D'.metadata = wRoundDS.metadata ∧
      D'.buildings.map Prod.fst = wRoundDS.buildings.map Prod.fst ∧
      D'.buildings = wRoundDS.buildings.map (fun bb => (bb.1, strip bb.2)) :=
  export_load_hdf5_roundtrip wRoundDS {} (by decide)

/-- C3: a store holding a table under `/B/utility/electric/mains/S/M`
is decoded into building number `B` (as an integer), under the
`MainsName` with `split = S` and `meter = M`, carrying that table. -/
theorem mains_key_decode (B S M : Nat) (df : DataFrame ColKey)
    (md : Option (List (String × String))) (ds₀ : DataSet) :
    ∃ r, DataSet.load_hdf5 ds₀
        { metadataFile := md, store := HStore.put {} (mainsKeyRaw B S M) df }
      = .ok r ∧
      r.buildings = [(B, { utility := { electric :=
        { mains := [(⟨S, M⟩, df)], appliances := [],
          circuits := [] } } })] := by
  have hst : HStore.put {} (mainsKeyRaw B S M) df
      = ⟨exportPairs { buildings := [(B, { utility := { electric :=
          { mains := [(⟨S, M⟩, df)], appliances := [],
            circuits := [] } } })], metadata := [] }⟩ := by
    rw [HStore.put, normalizeKey_mainsKeyRaw]
    rfl
  have hg : goodDataSet { buildings := [(B, { utility := { electric :=
      { mains := [(⟨S, M⟩, df)], appliances := [],
        circuits := [] } } })], metadata := [] } := by
    refine ⟨by simp, ?_⟩
    intro bb hbb
    simp only [List.mem_singleton] at hbb
    subst hbb
    exact ⟨⟨by simp, by simp⟩, Or.inl (by simp), by simp⟩
  refine ⟨⟨[(B, { utility := { electric := {
      mains := [(⟨S, M⟩, df)]
      appliances := []
      circuits := [] } } })],
    (match md with | some m => m | none => ds₀.metadata)⟩, ?_, rfl⟩
  rw [DataSet.load_hdf5, hst]
  try dsimp only
  rw [bind_eval (decodeBuildings_exportPairs hg)]
  cases md <;> rfl

/-- C9: the decode branches classify keys by substring containment
alone — the composed mains filter keeps exactly the keys containing
`"utility"`, `"electric"` and `"mains"` anywhere, and the appliances
filter those containing `"utility"`, `"electric"` and `"appliances"`;
consequently the exported key of an appliance named `"mains_fridge"`
is selected by the mains branch as well as the appliances branch, and
loading such a store aborts with `ValueError` when the mains branch
parses the name segment as an integer. -/
theorem substring_key_classification :
    (∀ (keys_building : List (List Char)),
      ((keys_building.filter (fun k => pyContains "utility" k)).filter
          (fun k => pyContains "electric" k)).filter
          (fun k => pyContains "mains" k)
        = keys_building.filter (fun k =>
            pyContains "utility" k && pyContains "electric" k
              && pyContains "mains" k) ∧
      ((keys_building.filter (fun k => pyContains "utility" k)).filter
          (fun k => pyContains "electric" k)).filter
          (fun k => pyContains "appliances" k)
        = keys_building.filter (fun k =>
            pyContains "utility" k && pyContains "electric" k
              && pyContains "appliances" k)) ∧
    pyContains "mains" (normalizeKey (applianceKeyRaw 1 "mains_fridge" 2))
      = true ∧
    pyContains "appliances"
      (normalizeKey (applianceKeyRaw 1 "mains_fridge" 2)) = true ∧
    DataSet.load_hdf5 {} (DataSet.export mainsFridgeDS)
      = .error "ValueError" := by
  refine ⟨?_, by decide, by decide, by decide⟩
  intro l
  constructor
  · rw [List.filter_filter, List.filter_filter]
    congr 1
    funext k
    cases hu : pyContains "utility" k <;>
      cases hel : pyContains "electric" k <;>
        cases hm : pyContains "mains" k <;> rfl
  · rw [List.filter_filter, List.filter_filter]
    congr 1
    funext k
    cases hu : pyContains "utility" k <;>
      cases hel : pyContains "electric" k <;>
        cases ha : pyContains "appliances" k <;> rfl

end Nilmtk
